import Mathlib

/-!
Verification development for the chess-bot repository.

The development shallowly embeds the three core components:
  * the PGN ingestion and style-profiling pipeline
    (`parsePGN`, `analyzePlayerStyle` from `move-history.tsx`),
  * the move-selection engine (`getAIMove` and the four personality
    scorers from the ai-engine module),
  * the game state machine (`gameReducer` from `game-context.tsx`).

JavaScript numbers are modelled by `ℚ`.  All numeric constants appearing
in the source (0.3, 0.5, 1.5, 3.25, ...) are exactly representable as
IEEE doubles or close enough that no comparison or floor in the code can
be flipped by float rounding, so the rational model is faithful for the
properties proved here (see the comments at `pickTopFraction` and
`jsRound`).

The chess rules engine (the external chess.js library) is modelled by an
abstract `Engine` structure over an opaque position type, together with a
`ChessJS` wrapper reproducing the part of chess.js semantics the reducer
relies on; crucially, `new Chess(fen)` yields an instance whose internal
undo history is empty.
-/

namespace ChessBot

/-- JS `Math.round` on the nonnegative rationals arising here:
round half up, i.e. `⌊q + 1/2⌋`. -/
def jsRound (q : ℚ) : Int := Int.floor (q + 1/2)

/-- JS regex `\s` (the ASCII part; the inputs handled here are ASCII). -/
def isWsChar (c : Char) : Bool :=
  c = ' ' || c = '\n' || c = '\t' || c = '\r' || c = '\x0b' || c = '\x0c'

/-- Does `needle` occur at the start of `hay`? -/
def startsWithSeq : List Char → List Char → Bool
  | [], _ => true
  | _ :: _, [] => false
  | a :: as, b :: bs => a = b && startsWithSeq as bs

/-- JS `String.prototype.includes`: does `needle` occur anywhere in `hay`? -/
def containsSeq (needle : List Char) : List Char → Bool
  | [] => startsWithSeq needle []
  | c :: rest => startsWithSeq needle (c :: rest) || containsSeq needle rest

/-- JS `String.prototype.trim` (ASCII whitespace). -/
def trimWs (l : List Char) : List Char :=
  ((l.dropWhile isWsChar).reverse.dropWhile isWsChar).reverse

/-- JS `String.prototype.toLowerCase` on the ASCII names handled here. -/
def toLowerStr (s : String) : String := ⟨s.data.map Char.toLower⟩

/-! ### `parsePGN` (move-history.tsx)

`pgnText.split(/(?=\[Event)/g)`: the text is split immediately before
every occurrence of `[Event` except one at position 0 (a zero-width match
at the start of the string produces no split in JS). -/

/-- The literal `[Event` looked up by the splitting regex. -/
def evTag : List Char := ['[', 'E', 'v', 'e', 'n', 't']

/-- Worker for `splitBeforeEvent`; `cur` is the reversed current block. -/
def splitBEAux : List Char → List Char → List (List Char)
  | cur, [] => [cur.reverse]
  | cur, c :: rest =>
    if startsWithSeq evTag (c :: rest) && !cur.isEmpty then
      cur.reverse :: splitBEAux [c] rest
    else
      splitBEAux (c :: cur) rest

/-- Embeds `text.split(/(?=\[Event)/g)`. -/
def splitBeforeEvent (l : List Char) : List (List Char) := splitBEAux [] l

/-- JS regex `\w` = `[A-Za-z0-9_]`. -/
def isWordChar (c : Char) : Bool :=
  ('a' ≤ c && c ≤ 'z') || ('A' ≤ c && c ≤ 'Z') || ('0' ≤ c && c ≤ '9') || c = '_'

/-- One attempt of the header regex `\[(\w+)\s+"([^"]+)"\]` at the current
position; on success, the key/value pair and the rest of the input after
the match. -/
def matchHeaderAt : List Char → Option ((String × String) × List Char)
  | '[' :: rest =>
    let w := rest.takeWhile isWordChar
    let r1 := rest.dropWhile isWordChar
    if w.isEmpty then none else
    let sp := r1.takeWhile isWsChar
    let r2 := r1.dropWhile isWsChar
    if sp.isEmpty then none else
    match r2 with
    | '"' :: r3 =>
      let v := r3.takeWhile (fun c => c ≠ '"')
      let r4 := r3.dropWhile (fun c => c ≠ '"')
      if v.isEmpty then none else
      (match r4 with
       | '"' :: ']' :: r5 => some ((⟨w⟩, ⟨v⟩), r5)
       | _ => none)
    | _ => none
  | _ => none

/-- Fuelled global scan of the header regex (each step consumes at least
one character, so fuel `l.length` is always sufficient). -/
def headersOfAux : Nat → List Char → List (String × String)
  | 0, _ => []
  | _ + 1, [] => []
  | f + 1, c :: rest =>
    match matchHeaderAt (c :: rest) with
    | some (kv, rest') => kv :: headersOfAux f rest'
    | none => headersOfAux f rest

/-- All header key/value pairs of a game block, in scan order. -/
def headersOf (l : List Char) : List (String × String) :=
  headersOfAux l.length l

/-- Reading `headers[key]` from the JS object built by sequential
assignment: the last occurrence of a key wins. -/
def headerLookup (hs : List (String × String)) (key : String) : Option String :=
  ((hs.filter (fun kv => kv.1 = key)).getLast?).map (fun kv => kv.2)

/-! The moves-section regex `/\]\s*\n\s*(.+?)(?:\s*(?:1-0|0-1|1\/2-1\/2|\*))?$/s`
with JS backtracking semantics: leftmost match position; first `\s*`
greedy, then a literal newline, second `\s*` greedy, the group lazy, and
the trailing result marker optional and anchored at the end. -/

/-- Length of the whitespace prefix. -/
def wsLen (l : List Char) : Nat := (l.takeWhile isWsChar).length

/-- The accepted trailing result markers. -/
def resultTokens : List (List Char) :=
  [['1', '-', '0'], ['0', '-', '1'], ['1', '/', '2', '-', '1', '/', '2'], ['*']]

/-- Can the remainder after the lazy group be consumed by
`(?:\s*(?:1-0|0-1|1\/2-1\/2|\*))?$`? -/
def suffixOkay (s : List Char) : Bool :=
  s.isEmpty || resultTokens.contains (s.dropWhile isWsChar)

/-- Lazy expansion of `(.+?)`: the shortest nonempty prefix of `body`
whose remainder satisfies `suffixOkay`. -/
def lazyBody (body : List Char) : Option (List Char) :=
  (List.range body.length).findSome? (fun l0 =>
    let n := l0 + 1
    if suffixOkay (body.drop n) then some (body.take n) else none)

/-- Match of the moves-section regex at a `]`; `rest` is the input after
that bracket.  Candidate newline positions inside the whitespace run are
tried longest-first (greedy first `\s*`), then the second `\s*`
longest-first, then the lazy group. -/
def matchMovesAt (rest : List Char) : Option (List Char) :=
  (((List.range (wsLen rest)).filter (fun j => rest.get? j = some '\n')).reverse).findSome?
    (fun j =>
      let after := rest.drop (j + 1)
      ((List.range (wsLen after + 1)).reverse).findSome?
        (fun k => lazyBody (after.drop k)))

/-- Embeds `block.match(/\]\s*\n\s*(.+?)(?:\s*(?:1-0|0-1|1\/2-1\/2|\*))?$/s)`,
returning the first capture group of the leftmost match. -/
def movesExtract : List Char → Option (List Char)
  | [] => none
  | c :: rest =>
    if c = ']' then
      match matchMovesAt rest with
      | some g => some g
      | none => movesExtract rest
    else movesExtract rest

/-! Cleaning pipeline of `parseMoves`.  Note on the source's second
replace, `.replace(/$$[^)]*$$/g, " ")`: in a JS regex `$` is an anchor,
so this pattern can only match the empty string at the very end of the
input; the replacement appends a space there which the later whitespace
normalisation and trim erase again.  It is therefore modelled as the
identity. -/

/-- After a `{`, drop through the first `}` (comment body `[^}]*\}`). -/
def dropToClose (l : List Char) : Option (List Char) :=
  match l.dropWhile (fun c => c ≠ '\x7d') with
  | [] => none
  | _ :: rest => some rest

/-- Fuelled `.replace(/\{[^}]*\}/g, " ")`; an unmatched `{` is kept. -/
def stripCommentsF : Nat → List Char → List Char
  | 0, l => l
  | _ + 1, [] => []
  | f + 1, c :: rest =>
    if c = '\x7b' then
      match dropToClose rest with
      | some after => ' ' :: stripCommentsF f after
      | none => c :: stripCommentsF f rest
    else c :: stripCommentsF f rest

/-- Embeds `.replace(/\{[^}]*\}/g, " ")`. -/
def stripComments (l : List Char) : List Char := stripCommentsF l.length l

/-- Decimal digit. -/
def isDigitChar (c : Char) : Bool := '0' ≤ c && c ≤ '9'

/-- Fuelled `.replace(/\$\d+/g, " ")` (numeric annotation glyphs). -/
def stripNagsF : Nat → List Char → List Char
  | 0, l => l
  | _ + 1, [] => []
  | f + 1, c :: rest =>
    if c = '$' && !(rest.takeWhile isDigitChar).isEmpty then
      ' ' :: stripNagsF f (rest.dropWhile isDigitChar)
    else c :: stripNagsF f rest

/-- Embeds `.replace(/\$\d+/g, " ")`. -/
def stripNags (l : List Char) : List Char := stripNagsF l.length l

/-- Fuelled `.replace(/\d+\.\s*/g, " ")` (move numbers).  A digit run not
followed by a dot cannot contain a later match start, so it is emitted
whole. -/
def stripMoveNumsF : Nat → List Char → List Char
  | 0, l => l
  | _ + 1, [] => []
  | f + 1, c :: rest =>
    if isDigitChar c then
      let ds := rest.takeWhile isDigitChar
      let r1 := rest.dropWhile isDigitChar
      match r1 with
      | '.' :: r2 => ' ' :: stripMoveNumsF f (r2.dropWhile isWsChar)
      | _ => c :: (ds ++ stripMoveNumsF f r1)
    else c :: stripMoveNumsF f rest

/-- Embeds `.replace(/\d+\.\s*/g, " ")`. -/
def stripMoveNums (l : List Char) : List Char := stripMoveNumsF l.length l

/-- Fuelled `.replace(/1-0|0-1|1\/2-1\/2|\*/g, "")` (result markers). -/
def stripResultsF : Nat → List Char → List Char
  | 0, l => l
  | _ + 1, [] => []
  | f + 1, c :: rest =>
    if startsWithSeq ['1', '-', '0'] (c :: rest) then stripResultsF f (rest.drop 2)
    else if startsWithSeq ['0', '-', '1'] (c :: rest) then stripResultsF f (rest.drop 2)
    else if startsWithSeq ['1', '/', '2', '-', '1', '/', '2'] (c :: rest) then
      stripResultsF f (rest.drop 6)
    else if c = '*' then stripResultsF f rest
    else c :: stripResultsF f rest

/-- Embeds `.replace(/1-0|0-1|1\/2-1\/2|\*/g, "")`. -/
def stripResults (l : List Char) : List Char := stripResultsF l.length l

/-- Fuelled `.replace(/\s+/g, " ")`. -/
def normWsF : Nat → List Char → List Char
  | 0, l => l
  | _ + 1, [] => []
  | f + 1, c :: rest =>
    if isWsChar c then ' ' :: normWsF f (rest.dropWhile isWsChar)
    else c :: normWsF f rest

/-- Embeds `.replace(/\s+/g, " ")`. -/
def normWs (l : List Char) : List Char := normWsF l.length l

/-- The whole cleaning chain of `parseMoves` (comments, variations — see
the note above, annotations, quality marks, move numbers, results,
whitespace normalisation, trim). -/
def cleanMovesText (l : List Char) : List Char :=
  trimWs (normWs (stripResults (stripMoveNums
    ((stripNags (stripComments l)).filter (fun c => c ≠ '!' && c ≠ '?')))))

/-- JS `"a b c".split(" ")`. -/
def splitOnSpaceAux : List Char → List Char → List (List Char)
  | cur, [] => [cur.reverse]
  | cur, c :: rest =>
    if c = ' ' then cur.reverse :: splitOnSpaceAux [] rest
    else splitOnSpaceAux (c :: cur) rest

/-- Split on single spaces. -/
def splitOnSpace (l : List Char) : List (List Char) := splitOnSpaceAux [] l

/-- File letter `a`–`h` (pattern `[a-h]` of the move regex). -/
def isFileLetter (c : Char) : Bool := 'a' ≤ c && c ≤ 'h'

/-- Rank digit `1`–`8`. -/
def isRankDigit (c : Char) : Bool := '1' ≤ c && c ≤ '8'

/-- Piece letter `[KQRBN]`. -/
def isPieceLetter (c : Char) : Bool :=
  c = 'K' || c = 'Q' || c = 'R' || c = 'B' || c = 'N'

/-- Promotion piece `[QRBN]`. -/
def isPromoLetter (c : Char) : Bool :=
  c = 'Q' || c = 'R' || c = 'B' || c = 'N'

/-- Tail `(?:=[QRBN])?[+#]?$` after the destination square. -/
def stdTailOkay : List Char → Bool
  | [] => true
  | ['+'] => true
  | ['#'] => true
  | '=' :: p :: rest =>
    isPromoLetter p && (rest = [] || rest = ['+'] || rest = ['#'])
  | _ => false

/-- Destination `[a-h][1-8]` followed by the tail. -/
def stdDest : List Char → Bool
  | f :: r :: rest => isFileLetter f && isRankDigit r && stdTailOkay rest
  | _ => false

/-- Both readings of an optional single-character regex item. -/
def optSkips (p : Char → Bool) (l : List Char) : List (List Char) :=
  match l with
  | c :: rest => if p c then [rest, l] else [l]
  | [] => [l]

/-- The standard-move regex
`^[KQRBN]?[a-h]?[1-8]?x?[a-h][1-8](?:=[QRBN])?[+#]?$`, by trying every
reading of the four optional prefixes. -/
def stdMoveOkay (l : List Char) : Bool :=
  (optSkips isPieceLetter l).any (fun l1 =>
    (optSkips isFileLetter l1).any (fun l2 =>
      (optSkips isRankDigit l2).any (fun l3 =>
        (optSkips (fun c => c = 'x') l3).any stdDest)))

/-- The castling regex `^O-O(-O)?[+#]?$`. -/
def castleRegexOkay (l : List Char) : Bool :=
  l = ['O', '-', 'O'] || l = ['O', '-', 'O', '-', 'O'] ||
  l = ['O', '-', 'O', '+'] || l = ['O', '-', 'O', '#'] ||
  l = ['O', '-', 'O', '-', 'O', '+'] || l = ['O', '-', 'O', '-', 'O', '#']

/-- Embeds `isValidMove` of move-history.tsx. -/
def isValidMove (l : List Char) : Bool :=
  if l.length < 2 then false
  else if l = ['O', '-', 'O'] || l = ['O', '-', 'O', '-', 'O'] then true
  else if containsSeq ['O', '-', 'O'] l then castleRegexOkay l
  else stdMoveOkay l

/-- Embeds `parseMoves` of move-history.tsx: clean, tokenise, keep valid moves. -/
def parseMoves (l : List Char) : List String :=
  let clean := cleanMovesText l
  if clean.isEmpty then []
  else ((splitOnSpace clean).filter isValidMove).map (fun t => (⟨t⟩ : String))

/-- Embeds `ParsedGame` of move-history.tsx. -/
structure ParsedGame where
  moves : List String
  result : String
  white : String
  black : String
  event : Option String
  date : Option String
  eco : Option String
deriving DecidableEq

/-- Embeds `parseGameBlock` of move-history.tsx. -/
def parseGameBlock (block : List Char) : Option ParsedGame :=
  let headers := headersOf block
  let movesText := (movesExtract block).getD []
  let moves := parseMoves movesText
  if moves.isEmpty then none
  else some
    { moves := moves
      result := (headerLookup headers "Result").getD "*"
      white := (headerLookup headers "White").getD "Unknown"
      black := (headerLookup headers "Black").getD "Unknown"
      event := headerLookup headers "Event"
      date := headerLookup headers "Date"
      eco := headerLookup headers "ECO" }

/-- Embeds `parsePGN` of move-history.tsx. -/
def parsePGN (text : String) : List ParsedGame :=
  let blocks := (splitBeforeEvent text.data).filter (fun b => !(trimWs b).isEmpty)
  blocks.filterMap (fun b =>
    match parseGameBlock b with
    | some g => if 5 < g.moves.length then some g else none
    | none => none)

/-! ### `analyzePlayerStyle` (move-history.tsx) -/

/-- The `pieceActivity` record of `PlayerStyle`. -/
structure PieceActivity where
  queenMoves : Nat
  rookMoves : Nat
  bishopMoves : Nat
  knightMoves : Nat
  pawnMoves : Nat
deriving DecidableEq

/-- The `tacticalPatterns` record of `PlayerStyle`. -/
structure TacticalPatterns where
  captures : Nat
  checks : Nat
  castling : Nat
  promotions : Nat
deriving DecidableEq

/-- The `endgameStyle` record of `PlayerStyle`. -/
structure EndgameStyle where
  kingActivity : Nat
  pawnPushes : Nat
  pieceExchanges : Nat
deriving DecidableEq

/-- Embeds `PlayerStyle` of move-history.tsx (counters as naturals, derived
metrics as integers). -/
structure PlayerStyle where
  name : String
  totalGames : Nat
  averageGameLength : Int
  openingPreferences : List (String × Nat)
  pieceActivity : PieceActivity
  tacticalPatterns : TacticalPatterns
  endgameStyle : EndgameStyle
  aggressiveness : Int
  positionalVsTactical : Int
deriving DecidableEq

/-- Case-insensitive substring test used to select a player's games. -/
def nameMatches (playerName : String) (g : ParsedGame) : Bool :=
  containsSeq (toLowerStr playerName).data (toLowerStr g.white).data ||
  containsSeq (toLowerStr playerName).data (toLowerStr g.black).data

/-- Embeds `openingPreferences[opening] = (openingPreferences[opening] || 0) + 1`. -/
def bumpOpening (prefs : List (String × Nat)) (key : String) : List (String × Nat) :=
  if prefs.any (fun kv => kv.1 = key) then
    prefs.map (fun kv => if kv.1 = key then (kv.1, kv.2 + 1) else kv)
  else prefs ++ [(key, 1)]

/-- Mutable accumulators of `analyzePlayerStyle`. -/
structure StyleAcc where
  style : PlayerStyle
  totalMoves : Nat
  playerMoveCount : Nat

/-- The "Quick piece identification" block of the per-move loop: piece
activity by first character, with the endgame-window king/pawn counters
(last 20 plies). -/
def pieceActivityUpdate (st : PlayerStyle) (endgameWindow : Bool) (mv : String) :
    PlayerStyle :=
  match mv.data.head? with
  | some 'Q' => { st with pieceActivity :=
      { st.pieceActivity with queenMoves := st.pieceActivity.queenMoves + 1 } }
  | some 'R' => { st with pieceActivity :=
      { st.pieceActivity with rookMoves := st.pieceActivity.rookMoves + 1 } }
  | some 'B' => { st with pieceActivity :=
      { st.pieceActivity with bishopMoves := st.pieceActivity.bishopMoves + 1 } }
  | some 'N' => { st with pieceActivity :=
      { st.pieceActivity with knightMoves := st.pieceActivity.knightMoves + 1 } }
  | some 'K' =>
    if !mv.data.contains 'O' && endgameWindow then
      { st with endgameStyle :=
        { st.endgameStyle with kingActivity := st.endgameStyle.kingActivity + 1 } }
    else st
  | _ =>
    let st := { st with pieceActivity :=
      { st.pieceActivity with pawnMoves := st.pieceActivity.pawnMoves + 1 } }
    if endgameWindow then
      { st with endgameStyle :=
        { st.endgameStyle with pawnPushes := st.endgameStyle.pawnPushes + 1 } }
    else st

/-- The "Quick pattern recognition" block of the per-move loop: captures
(with endgame-window exchanges), checks, castling and promotions. -/
def tacticalUpdate (st : PlayerStyle) (endgameWindow : Bool) (mv : String) :
    PlayerStyle :=
  let st :=
    if mv.data.contains 'x' then
      let st := { st with tacticalPatterns :=
        { st.tacticalPatterns with captures := st.tacticalPatterns.captures + 1 } }
      if endgameWindow then
        { st with endgameStyle :=
          { st.endgameStyle with pieceExchanges := st.endgameStyle.pieceExchanges + 1 } }
      else st
    else st
  let st :=
    if mv.data.contains '+' || mv.data.contains '#' then
      { st with tacticalPatterns :=
        { st.tacticalPatterns with checks := st.tacticalPatterns.checks + 1 } }
    else st
  let st :=
    if containsSeq ['O', '-', 'O'] mv.data then
      { st with tacticalPatterns :=
        { st.tacticalPatterns with castling := st.tacticalPatterns.castling + 1 } }
    else st
  if mv.data.contains '=' then
    { st with tacticalPatterns :=
      { st.tacticalPatterns with promotions := st.tacticalPatterns.promotions + 1 } }
  else st

/-- Body of the per-move loop of `analyzePlayerStyle`. -/
def analyzeMove (acc : StyleAcc) (isWhite : Bool) (gameLen : Nat) (i : Nat)
    (mv : String) : StyleAcc :=
  let isPlayerMove := (i % 2 = 0 && isWhite) || (i % 2 = 1 && !isWhite)
  if !isPlayerMove then acc else
  let acc := { acc with playerMoveCount := acc.playerMoveCount + 1 }
  -- JS `i >= moves.length - 20` on (possibly negative) numbers
  let endgameWindow := gameLen ≤ i + 20
  { acc with style :=
      tacticalUpdate (pieceActivityUpdate acc.style endgameWindow mv) endgameWindow mv }

/-- Per-game body of `analyzePlayerStyle`: add the game's full move count
to `totalMoves`, record the opening key (first 6 plies), then run the
per-move loop over the first `min(length, 80)` plies. -/
def analyzeGame (playerName : String) (acc : StyleAcc) (g : ParsedGame) : StyleAcc :=
  let acc := { acc with totalMoves := acc.totalMoves + g.moves.length }
  let isWhite := containsSeq (toLowerStr playerName).data (toLowerStr g.white).data
  let opening := String.intercalate " " (g.moves.take 6)
  let acc :=
    if opening ≠ "" then
      { acc with style := { acc.style with
          openingPreferences := bumpOpening acc.style.openingPreferences opening } }
    else acc
  (List.range (min g.moves.length 80)).foldl
    (fun a i => analyzeMove a isWhite g.moves.length i (g.moves.getD i "")) acc

/-- The success branch of `analyzePlayerStyle`: initialise the style
record, fold the per-game analysis, then derive the metrics. -/
def styleFromGames (playerGames : List ParsedGame) (playerName : String) : PlayerStyle :=
  let style0 : PlayerStyle :=
    { name := playerName
      totalGames := playerGames.length
      averageGameLength := 0
      openingPreferences := []
      pieceActivity := ⟨0, 0, 0, 0, 0⟩
      tacticalPatterns := ⟨0, 0, 0, 0⟩
      endgameStyle := ⟨0, 0, 0⟩
      aggressiveness := 50
      positionalVsTactical := 50 }
  let acc := playerGames.foldl (analyzeGame playerName) ⟨style0, 0, 0⟩
  let st := acc.style
  let n : ℚ := (playerGames.length : ℚ)
  let st := { st with averageGameLength := jsRound ((acc.totalMoves : ℚ) / n) }
  let capturesPerGame : ℚ := (st.tacticalPatterns.captures : ℚ) / n
  let checksPerGame : ℚ := (st.tacticalPatterns.checks : ℚ) / n
  let aggro : Int := min 100 (max 0 (jsRound ((capturesPerGame + checksPerGame) * 8)))
  let st := { st with aggressiveness := aggro }
  let totalPieceMoves := st.pieceActivity.queenMoves + st.pieceActivity.rookMoves +
      st.pieceActivity.bishopMoves + st.pieceActivity.knightMoves +
      st.pieceActivity.pawnMoves
  let st :=
    if 0 < totalPieceMoves then
      let minorPieceMoves := st.pieceActivity.bishopMoves + st.pieceActivity.knightMoves
      { st with positionalVsTactical :=
          jsRound (((minorPieceMoves : ℚ) / (totalPieceMoves : ℚ)) * 100) }
    else st
  st

/-- Embeds `analyzePlayerStyle` of move-history.tsx; the JS `throw` is modelled
by `Except.error` carrying the thrown message. -/
def analyzePlayerStyle (games : List ParsedGame) (playerName : String) :
    Except String PlayerStyle :=
  let playerGames := games.filter (nameMatches playerName)
  if playerGames.isEmpty then
    .error ("No games found for player: " ++ playerName)
  else
    .ok (styleFromGames playerGames playerName)

/-! ### Move selection engine (ai-engine module)

A chess.js verbose move and the snapshot of the `Chess` instance the
scorers read (`moves({verbose:true})`, `history({verbose:true})`,
`turn()`, `board()`).  Randomness is passed in explicitly: `jitAt i` is
the `Math.random()` outcome drawn while scoring the `i`-th move and
`pickR` the outcome drawn for the final pick; both lie in `[0, 1)`. -/

/-- A chess.js verbose move (the fields the repository reads). -/
structure VMove where
  fromSq : String
  toSq : String
  piece : String
  color : String
  captured : Option String
  promotion : Option String
  san : String
deriving DecidableEq

/-- A chess.js `board()` entry: `{ type, color, square }`. -/
structure BoardSq where
  sqType : String
  sqColor : String
  sqName : String
deriving DecidableEq

/-- Snapshot of the `Chess` instance consumed by the scorers. -/
structure Snap where
  moves : List VMove
  histMoves : List VMove
  turn : String
  board : List (List (Option BoardSq))
deriving DecidableEq

/-- Embeds `AIPersonality` of the ai-engine module. -/
inductive AIPersonality where
  | defensiveTactical
  | aggressive
  | positional
  | balanced
  | styleBased
deriving DecidableEq

/-- Embeds `AIConfig` of the ai-engine module. -/
structure AIConfig where
  personality : AIPersonality
  thinkingTime : ℚ
  playerStyle : Option PlayerStyle

/-- Does the SAN of a move contain the character `c`? -/
def sanHas (mv : VMove) (c : Char) : Bool := mv.san.data.contains c

/-- First character code of a square name (`sq.charCodeAt(0)`); the
squares fed in by chess.js are always two characters, the `0` default is
never reached on well-formed inputs. -/
def chCode0 (s : String) : Int := ((s.data.getD 0 '\x00').toNat : Int)

/-- Embeds `parseInt(sq[1])` for a square name. -/
def rankNum (s : String) : Int := ((s.data.getD 1 '\x00').toNat : Int) - 48

/-- Second character of a square name (JS `sq[1]` compared as a string). -/
def rankChar (s : String) : Char := s.data.getD 1 '\x00'

/-- Embeds `[String.fromCharCode(f-1), String.fromCharCode(f+1)]` for the file
letter of a destination square. -/
def adjFilesOf (toSq : String) : List Char :=
  let fc := (toSq.data.getD 0 '\x00').toNat
  [Char.ofNat (fc - 1), Char.ofNat (fc + 1)]

/-- Embeds `row[idx]` with JS out-of-range and negative indices giving a falsy
value. -/
def rowAt (row : List (Option BoardSq)) (i : Int) : Option BoardSq :=
  if i < 0 then none
  else match row.get? i.toNat with
    | some o => o
    | none => none

/-- The piece-value table of `getDefensiveTacticalMove`. -/
def pieceValuesD : String → ℚ
  | "p" => 1 | "n" => 3 | "b" => 3 | "r" => 5 | "q" => 9 | "k" => 0
  | _ => 0

/-- The piece-value table of `getCarlsenStyleMove` (bishop 3.25). -/
def pieceValuesC : String → ℚ
  | "p" => 1 | "n" => 3 | "b" => 13/4 | "r" => 5 | "q" => 9 | "k" => 0
  | _ => 0

/-- The central squares list shared by the scorers. -/
def centralSquares : List String := ["d4", "d5", "e4", "e5", "c4", "c5", "f4", "f5"]

/-! Scoring terms of `getDefensiveTacticalMove`, in source order. -/

/-- Term 1: captures, doubled for winning material, halved otherwise. -/
def dCaptureTerm (mv : VMove) : ℚ :=
  match mv.captured with
  | some cap =>
    let captureValue := pieceValuesD cap
    let pieceValue := pieceValuesD mv.piece
    if pieceValue ≤ captureValue then captureValue * 2 else captureValue * (1/2)
  | none => 0

/-- Term 2 (shared with the Carlsen scorer): `san.includes("+")`. -/
def checkSanTerm (mv : VMove) : ℚ := if sanHas mv '+' then 3 else 0

/-- Term 3 (shared with the Carlsen scorer): `san.includes("#")`. -/
def mateSanTerm (mv : VMove) : ℚ := if sanHas mv '#' then 100 else 0

/-- Term 4: develop knights and bishops from the back rank. -/
def dDevTerm (mv : VMove) : ℚ :=
  if (mv.piece = "n" || mv.piece = "b") &&
     (mv.fromSq.data.get? 1 = some '1' || mv.fromSq.data.get? 1 = some '8')
  then 2 else 0

/-- Term 5: central control. -/
def dCentralTerm (mv : VMove) : ℚ :=
  if centralSquares.contains mv.toSq then 3/2 else 0

/-- Term 6: castling (`san.includes("O-O")`). -/
def dCastleTerm (mv : VMove) : ℚ :=
  if containsSeq ['O', '-', 'O'] mv.san.data then 4 else 0

/-- Term 7: penalty for moving the same piece twice in the opening
(history shorter than 16, same piece and origin in the last 4 plies). -/
def dSamePieceTerm (g : Snap) (mv : VMove) : ℚ :=
  if g.histMoves.length < 16 &&
     ((g.histMoves.drop (g.histMoves.length - 4)).any
       (fun pm => pm.piece = mv.piece && pm.fromSq = mv.fromSq))
  then -1 else 0

/-- Term 8: king activity after move 20. -/
def dKingEndTerm (g : Snap) (mv : VMove) : ℚ :=
  if mv.piece = "k" && 20 < g.histMoves.length then 1 else 0

/-- Term 9: pawn support on adjacent files (before move 40). -/
def dPawnTerm (g : Snap) (mv : VMove) : ℚ :=
  if mv.piece = "p" && g.histMoves.length < 40 then
    let adj := adjFilesOf mv.toSq
    if g.moves.any (fun m => m.piece = "p" && adj.contains (m.toSq.data.getD 0 '\x00'))
    then 1/2 else 0
  else 0

/-- The complete per-move score of `getDefensiveTacticalMove`. -/
def defensiveScore (g : Snap) (jit : ℚ) (mv : VMove) : ℚ :=
  jit * 2 + dCaptureTerm mv + checkSanTerm mv + mateSanTerm mv + dDevTerm mv +
  dCentralTerm mv + dCastleTerm mv + dSamePieceTerm g mv + dKingEndTerm g mv +
  dPawnTerm g mv

/-! Scoring terms of `getCarlsenStyleMove`, in source order. -/

/-- Embeds `game.board().flat().filter(p => p && p.type !== 'k').length <= 10`. -/
def snapIsEndgame (g : Snap) : Bool :=
  ((g.board.flatten.filterMap id).filter (fun p => p.sqType ≠ "k")).length ≤ 10

/-- Captures weighted by the Carlsen piece values. -/
def cCaptureTerm (mv : VMove) : ℚ :=
  match mv.captured with
  | some cap => pieceValuesC cap * (3/2)
  | none => 0

/-- King safety and activity by game phase. -/
def cKingTerm (isEndgame : Bool) (mv : VMove) : ℚ :=
  if mv.piece = "k" then
    if isEndgame then
      let fileIdx : ℚ := ((chCode0 mv.toSq - 97 : Int) : ℚ)
      3/2 + (4 - |9/2 - fileIdx|) * (1/2)
    else
      if mv.toSq.data.get? 1 = some '1' || mv.toSq.data.get? 1 = some '8' then -1
      else 0
  else 0

/-- Is the pawn (or a pawn on `pawnFile`/`pawnRank`) passed?  Mirrors the
inner `game.board().some(...)` scan. -/
def cBlockedScan (g : Snap) (fileIdx : Int) (toRank : Int) : Bool :=
  g.board.enum.any (fun rr =>
    match rowAt rr.2 fileIdx with
    | some sq =>
      sq.sqColor ≠ g.turn && sq.sqType = "p" &&
      ((g.turn = "w" && ((rr.1 : Int) < toRank)) ||
       (g.turn = "b" && (toRank < (rr.1 : Int) + 1)))
    | none => false)

/-- Pawn structure: passed-pawn bonus (doubled reward in the endgame) and
isolation penalty. -/
def cPawnTerm (g : Snap) (isEndgame : Bool) (mv : VMove) : ℚ :=
  if mv.piece = "p" then
    let isPassed := !cBlockedScan g (chCode0 mv.toSq - 97) (rankNum mv.toSq)
    let passedBonus : ℚ := if isPassed then (if isEndgame then 5 else 3) else 0
    let adj := adjFilesOf mv.toSq
    let support := g.board.any (fun row => row.any (fun osq =>
      match osq with
      | some sq =>
        sq.sqType = "p" && sq.sqColor = g.turn &&
        adj.contains (sq.sqName.data.getD 0 '\x00')
      | none => false))
    passedBonus + (if !support then -(3/2) else 0)
  else 0

/-- The strong-square table of `getCarlsenStyleMove`. -/
def strongSquaresOf : String → Option (List String)
  | "n" => some ["d5", "e5", "d4", "e4", "f5", "f4", "c5", "c4"]
  | "b" => some ["d5", "e5", "d4", "e4", "f5", "f4", "c5", "c4", "a3", "h3", "a6", "h6"]
  | "r" => some ["d1", "e1", "d8", "e8", "d2", "e2", "d7", "e7", "c1", "f1", "c8", "f8"]
  | "q" => some ["d3", "e3", "d6", "e6", "c3", "f3", "c6", "f6"]
  | _ => none

/-- Piece activity on strong squares. -/
def cStrongTerm (mv : VMove) : ℚ :=
  match strongSquaresOf mv.piece with
  | some l => if l.contains mv.toSq then 3/2 else 0
  | none => 0

/-- Extra aggression outside the endgame: `san.includes('x')`. -/
def cCaptureSanTerm (isEndgame : Bool) (mv : VMove) : ℚ :=
  if sanHas mv 'x' && !isEndgame then 3/2 else 0

/-- The opposing king found by `game.board().flat().find(...)`. -/
def findOppKing (g : Snap) : Option BoardSq :=
  (g.board.flatten.filterMap id).find? (fun sq => sq.sqType = "k" && sq.sqColor ≠ g.turn)

/-- Bring non-king pieces closer to the opposing king. -/
def cProximityTerm (g : Snap) (mv : VMove) : ℚ :=
  if mv.piece ≠ "k" then
    match findOppKing g with
    | some ksq =>
      let kf := chCode0 ksq.sqName - 97
      let kr := rankNum ksq.sqName
      let tf := chCode0 mv.toSq - 97
      let tr := rankNum mv.toSq
      let dist : Int := max |kf - tf| |kr - tr|
      ((8 - dist : Int) : ℚ) * (3/10)
    | none => 0
  else 0

/-- Endgame technique: activate the king. -/
def cEndKingTerm (isEndgame : Bool) (mv : VMove) : ℚ :=
  if isEndgame && mv.piece = "k" then 3/2 else 0

/-- Endgame technique: rooks behind own passed pawns. -/
def cRookTerm (g : Snap) (isEndgame : Bool) (mv : VMove) : ℚ :=
  if isEndgame && mv.piece = "r" then
    let file := mv.toSq.data.getD 0 '\x00'
    let cond := g.board.any (fun row => row.any (fun osq =>
      match osq with
      | some sq =>
        if sq.sqType = "p" && sq.sqColor = g.turn then
          let pawnFile := sq.sqName.data.getD 0 '\x00'
          let isPassed := !cBlockedScan g ((pawnFile.toNat : Int) - 97) (rankNum sq.sqName)
          isPassed && file = pawnFile &&
            ((g.turn = "w" && rankChar sq.sqName < rankChar mv.toSq) ||
             (g.turn = "b" && rankChar mv.toSq < rankChar sq.sqName))
        else false
      | none => false))
    if cond then 5/2 else 0
  else 0

/-- The complete per-move score of `getCarlsenStyleMove`. -/
def carlsenScore (g : Snap) (isEndgame : Bool) (jit : ℚ) (mv : VMove) : ℚ :=
  jit * 2 + cCaptureTerm mv + cKingTerm isEndgame mv + cPawnTerm g isEndgame mv +
  cStrongTerm mv + checkSanTerm mv + mateSanTerm mv + cCaptureSanTerm isEndgame mv +
  cProximityTerm g mv + cEndKingTerm isEndgame mv + cRookTerm g isEndgame mv

/-- The complete per-move score of `getPositionalMove`. -/
def positionalScore (g : Snap) (jit : ℚ) (mv : VMove) : ℚ :=
  jit * 2 + (if mv.piece = "n" || mv.piece = "b" then 2 else 0) +
  (if containsSeq ['O', '-', 'O'] mv.san.data then 3 else 0) +
  (if centralSquares.contains mv.toSq then 2 else 0) +
  (if mv.piece = "q" && g.histMoves.length < 10 then -2 else 0)

/-- The complete per-move score of `getStyleBasedMove`. -/
def styleScore (g : Snap) (ps : PlayerStyle) (jit : ℚ) (mv : VMove) : ℚ :=
  let isEndgamePhase := 50 ≤ g.histMoves.length
  jit * 2 +
  (if mv.captured.isSome then ((ps.aggressiveness : ℚ) / 100) * 5 else 0) +
  (match mv.piece with
   | "q" => (ps.pieceActivity.queenMoves : ℚ) / 200
   | "r" => (ps.pieceActivity.rookMoves : ℚ) / 200
   | "b" => (ps.pieceActivity.bishopMoves : ℚ) / 200
   | "n" => (ps.pieceActivity.knightMoves : ℚ) / 200
   | "p" => (ps.pieceActivity.pawnMoves : ℚ) / 200
   | _ => 0) +
  (if isEndgamePhase && mv.piece = "k" then (ps.endgameStyle.kingActivity : ℚ) / 100
   else 0)

/-- A scored move. -/
structure SM where
  mv : VMove
  score : ℚ
deriving DecidableEq

/-- Stable insertion before the first strictly smaller score: the effect
of JS `sort((a, b) => b.score - a.score)` (stable, descending). -/
def insertDesc (x : SM) : List SM → List SM
  | [] => [x]
  | y :: ys => if y.score < x.score then x :: y :: ys else y :: insertDesc x ys

/-- Stable descending sort by score. -/
def sortDesc : List SM → List SM
  | [] => []
  | x :: xs => insertDesc x (sortDesc xs)

/-- The scored list built by `moves.map((move) => ({move, score}))`,
drawing `jitAt i` for the `i`-th move. -/
def enumScored (l : List VMove) (sc : Nat → VMove → ℚ) : List SM :=
  l.enum.map (fun p => ⟨p.2, sc p.1 p.2⟩)

/-- Sort descending, slice the top fraction
(`Math.max(1, Math.floor(length * frac))` entries; the float products
`length * 0.3` and `length * 0.2` always floor to the same value as their
rational counterparts) and pick index `Math.floor(pickR * topLength)`;
`none` models the JS crash on an empty scored list (never reached through
`getAIMove`). -/
def pickTopFraction (scored : List SM) (frac : ℚ) (pickR : ℚ) : Option VMove :=
  let sorted := sortDesc scored
  let topCount := max 1 (Int.toNat (Int.floor ((scored.length : ℚ) * frac)))
  let top := sorted.take topCount
  (top.get? (Int.toNat (Int.floor (pickR * (top.length : ℚ))))).map SM.mv

/-- Embeds `getDefensiveTacticalMove` of the ai-engine module (top 30%). -/
def getDefensiveTacticalMove (g : Snap) (jitAt : Nat → ℚ) (pickR : ℚ) : Option VMove :=
  if g.moves.isEmpty then none
  else pickTopFraction
    (enumScored g.moves (fun i mv => defensiveScore g (jitAt i) mv)) (3/10) pickR

/-- Embeds `getCarlsenStyleMove` of the ai-engine module (top 20%). -/
def getCarlsenStyleMove (g : Snap) (jitAt : Nat → ℚ) (pickR : ℚ) : Option VMove :=
  pickTopFraction
    (enumScored g.moves (fun i mv => carlsenScore g (snapIsEndgame g) (jitAt i) mv))
    (1/5) pickR

/-- Embeds `getPositionalMove` of the ai-engine module (top 30%). -/
def getPositionalMove (g : Snap) (jitAt : Nat → ℚ) (pickR : ℚ) : Option VMove :=
  pickTopFraction
    (enumScored g.moves (fun i mv => positionalScore g (jitAt i) mv)) (3/10) pickR

/-- Embeds `getStyleBasedMove` of the ai-engine module (top 30%). -/
def getStyleBasedMove (g : Snap) (ps : PlayerStyle) (jitAt : Nat → ℚ) (pickR : ℚ) :
    Option VMove :=
  pickTopFraction
    (enumScored g.moves (fun i mv => styleScore g ps (jitAt i) mv)) (3/10) pickR

/-- Embeds `getAIMove` of the ai-engine module. -/
def getAIMove (g : Snap) (config : AIConfig) (jitAt : Nat → ℚ) (pickR : ℚ) :
    Option VMove :=
  if g.moves.isEmpty then none
  else
    match config.personality with
    | .defensiveTactical => getDefensiveTacticalMove g jitAt pickR
    | .aggressive => getCarlsenStyleMove g jitAt pickR
    | .positional => getPositionalMove g jitAt pickR
    | .styleBased =>
      match config.playerStyle with
      | some ps => getStyleBasedMove g ps jitAt pickR
      | none => getCarlsenStyleMove g jitAt pickR
    | .balanced => getCarlsenStyleMove g jitAt pickR

/-! ### Game state machine (game-context.tsx)

The chess rules engine is the external chess.js library; it is modelled
by an abstract `Engine` over an opaque position type.  `ChessJS` models a
chess.js instance: a current position plus the instance-local undo
history.  `new Chess(fen)` loads a position and *clears* that history —
this documented chess.js behaviour is what the reducer's `UNDO_MOVE`
branch trips over. -/

/-- A chess.js `get(square)` result. -/
structure Piece where
  ptype : String
  pcolor : String
deriving DecidableEq

/-- The chess.js operations the repository calls, over an opaque
position type. -/
structure Engine (Pos : Type) where
  initPos : Pos
  parseFen : String → Pos
  fen : Pos → String
  legalMoves : Pos → List VMove
  applyMove : Pos → VMove → Pos
  pieceAt : Pos → String → Option Piece
  turn : Pos → String
  isGameOver : Pos → Bool
  isCheckmate : Pos → Bool
  isStalemate : Pos → Bool
  inCheck : Pos → Bool

/-- A chess.js instance: current position and the undo history recorded
since construction, most recent first, each entry holding the position
before the move. -/
structure ChessJS (Pos : Type) where
  pos : Pos
  hist : List (Pos × VMove)
deriving DecidableEq

/-- Embeds `new Chess(fen)`: load a position, with an empty history. -/
def ChessJS.newFromFen {Pos : Type} (E : Engine Pos) (f : String) : ChessJS Pos :=
  ⟨E.parseFen f, []⟩

/-- Embeds `new Chess()`: the standard initial position, empty history. -/
def ChessJS.newGame {Pos : Type} (E : Engine Pos) : ChessJS Pos :=
  ⟨E.initPos, []⟩

/-- Embeds `game.history()`: SANs of the recorded moves, in chronological order. -/
def ChessJS.historySan {Pos : Type} (g : ChessJS Pos) : List String :=
  (g.hist.map (fun pm => pm.2.san)).reverse

/-- Embeds `game.move({from, to, promotion?})`: find the matching legal move
(promotion piece included) and apply it; `none` models both a `null`
return and a thrown error. -/
def ChessJS.moveFT {Pos : Type} (E : Engine Pos) (g : ChessJS Pos)
    (f t : String) (promo : Option String) : Option (VMove × ChessJS Pos) :=
  match (E.legalMoves g.pos).find?
      (fun m => m.fromSq = f && m.toSq = t && m.promotion = promo) with
  | some m => some (m, ⟨E.applyMove g.pos m, (g.pos, m) :: g.hist⟩)
  | none => none

/-- Embeds `game.undo()`: pop the most recent recorded move, restoring the
position before it; `null` when the history is empty. -/
def ChessJS.undo {Pos : Type} (g : ChessJS Pos) : Option (VMove × ChessJS Pos) :=
  match g.hist with
  | [] => none
  | (p, m) :: rest => some (m, ⟨p, rest⟩)

/-- Embeds `GameStatus` of game-context.tsx. -/
inductive GameStatus where
  | playing
  | checkmate
  | stalemate
  | draw
  | thinking
deriving DecidableEq

/-- Embeds `Difficulty` of game-context.tsx. -/
inductive Difficulty where
  | easy
  | medium
  | hard
  | style
deriving DecidableEq

/-- The `lastMove` record of the game state. -/
structure LastMove where
  lmFrom : String
  lmTo : String
  lmCaptured : Option String
deriving DecidableEq

/-- The `capturedPieces` record of the game state. -/
structure CapturedPieces where
  white : List String
  black : List String
deriving DecidableEq

/-- Embeds `GameState` of game-context.tsx. -/
structure GameState (Pos : Type) where
  game : ChessJS Pos
  fen : String
  moveHistory : List String
  gameStatus : GameStatus
  difficulty : Difficulty
  playerColor : String
  currentTurn : String
  selectedSquare : Option String
  possibleMoves : List String
  lastMove : Option LastMove
  capturedPieces : CapturedPieces
  playerStyle : Option PlayerStyle
deriving DecidableEq

/-- The `Partial<GameState>` payload of `LOAD_GAME`: present fields
overwrite, absent fields keep the old value (JS object spread). -/
structure LoadPayload (Pos : Type) where
  game : Option (ChessJS Pos)
  fen : Option String
  moveHistory : Option (List String)
  gameStatus : Option GameStatus
  difficulty : Option Difficulty
  playerColor : Option String
  currentTurn : Option String
  selectedSquare : Option (Option String)
  possibleMoves : Option (List String)
  lastMove : Option (Option LastMove)
  capturedPieces : Option CapturedPieces
  playerStyle : Option (Option PlayerStyle)
deriving DecidableEq

/-- Embeds `GameAction` of game-context.tsx. -/
inductive GameAction (Pos : Type) where
  | makeMove (fromSq toSq : String) (promotion : Option String)
  | setSelectedSquare (payload : Option String)
  | setPossibleMoves (payload : List String)
  | setDifficulty (payload : Difficulty)
  | setPlayerColor (payload : String)
  | setPlayerStyle (payload : Option PlayerStyle)
  | resetGame
  | undoMove
  | setGameStatus (payload : GameStatus)
  | loadGame (payload : LoadPayload Pos)

/-- Is the action a `LOAD_GAME`? -/
def GameAction.isLoadGame {Pos : Type} : GameAction Pos → Bool
  | .loadGame _ => true
  | _ => false

/-- Is the action a `RESET_GAME`? -/
def GameAction.isResetGame {Pos : Type} : GameAction Pos → Bool
  | .resetGame => true
  | _ => false

/-- Embeds `initialState` of game-context.tsx. -/
def initialState {Pos : Type} (E : Engine Pos) : GameState Pos :=
  { game := ChessJS.newGame E
    fen := E.fen E.initPos
    moveHistory := []
    gameStatus := .playing
    difficulty := .medium
    playerColor := "white"
    currentTurn := "white"
    selectedSquare := none
    possibleMoves := []
    lastMove := none
    capturedPieces := ⟨[], []⟩
    playerStyle := none }

/-- The state returned by every failure exit of `MAKE_MOVE`: unchanged
except for the cleared transient selection. -/
def clearSelection {Pos : Type} (s : GameState Pos) : GameState Pos :=
  { s with selectedSquare := none, possibleMoves := [] }

/-- The "Track captured pieces" block of `MAKE_MOVE`: the captured piece
is labelled with the opposing colour and pushed onto that colour's list. -/
def updateCaptured (cp : CapturedPieces) (moveDetails : VMove) : CapturedPieces :=
  match moveDetails.captured with
  | some cap =>
    let capturedPiece := (if moveDetails.color = "w" then "b" else "w") ++ cap.toUpper
    if moveDetails.color = "w" then { cp with black := cp.black ++ [capturedPiece] }
    else { cp with white := cp.white ++ [capturedPiece] }
  | none => cp

/-- The "Determine game status" block of `MAKE_MOVE`: the game-over
cascade checkmate, then stalemate, then draw. -/
def statusAfter {Pos : Type} (E : Engine Pos) (p : Pos) : GameStatus :=
  if E.isGameOver p then
    if E.isCheckmate p then .checkmate
    else if E.isStalemate p then .stalemate
    else .draw
  else .playing

/-- The success path of the `MAKE_MOVE` branch of `gameReducer`:
`none` on any of the three failure exits (no matching legal move,
rules-engine rejection, thrown error). -/
def makeMoveCore {Pos : Type} (E : Engine Pos) (s : GameState Pos)
    (f t : String) (promo : Option String) : Option (GameState Pos) :=
  let newGame := ChessJS.newFromFen E s.fen
  match (E.legalMoves newGame.pos).find? (fun m => m.fromSq = f && m.toSq = t) with
  | none => none
  | some moveDetails =>
    let piece := E.pieceAt newGame.pos f
    let isPromotion :=
      match piece with
      | some pc => pc.ptype = "p" &&
          ((pc.pcolor = "w" && t.data.get? 1 = some '8') ||
           (pc.pcolor = "b" && t.data.get? 1 = some '1'))
      | none => false
    let attempt :=
      if isPromotion then ChessJS.moveFT E newGame f t (some (promo.getD "q"))
      else ChessJS.moveFT E newGame f t none
    match attempt with
    | none => none
    | some (_, g2) =>
      some { s with
        game := g2
        fen := E.fen g2.pos
        moveHistory := ChessJS.historySan g2
        gameStatus := statusAfter E g2.pos
        currentTurn := if E.turn g2.pos = "w" then "white" else "black"
        selectedSquare := none
        possibleMoves := []
        lastMove := some ⟨f, t, moveDetails.captured⟩
        capturedPieces := updateCaptured s.capturedPieces moveDetails }

/-- The `LOAD_GAME` spread `{...state, ...payload}`. -/
def applyLoad {Pos : Type} (s : GameState Pos) (p : LoadPayload Pos) : GameState Pos :=
  { game := p.game.getD s.game
    fen := p.fen.getD s.fen
    moveHistory := p.moveHistory.getD s.moveHistory
    gameStatus := p.gameStatus.getD s.gameStatus
    difficulty := p.difficulty.getD s.difficulty
    playerColor := p.playerColor.getD s.playerColor
    currentTurn := p.currentTurn.getD s.currentTurn
    selectedSquare := p.selectedSquare.getD s.selectedSquare
    possibleMoves := p.possibleMoves.getD s.possibleMoves
    lastMove := p.lastMove.getD s.lastMove
    capturedPieces := p.capturedPieces.getD s.capturedPieces
    playerStyle := p.playerStyle.getD s.playerStyle }

/-- Embeds `gameReducer` of game-context.tsx. -/
def gameReducer {Pos : Type} (E : Engine Pos) (s : GameState Pos) :
    GameAction Pos → GameState Pos
  | .makeMove f t promo => (makeMoveCore E s f t promo).getD (clearSelection s)
  | .setSelectedSquare p => { s with selectedSquare := p }
  | .setPossibleMoves p => { s with possibleMoves := p }
  | .setDifficulty p => { s with difficulty := p }
  | .setPlayerColor p => { s with playerColor := p }
  | .setPlayerStyle p =>
    { s with playerStyle := p
             difficulty := if p.isSome then .style else .medium }
  | .resetGame =>
    { initialState E with
        difficulty := s.difficulty
        playerColor := s.playerColor
        playerStyle := s.playerStyle }
  | .undoMove =>
    let newGame := ChessJS.newFromFen E s.fen
    match ChessJS.undo newGame with
    | none => s
    | some (_, g2) =>
      -- if playing against the AI, undo the AI move too
      let g3 :=
        if s.playerColor ≠ s.currentTurn && 0 < g2.hist.length then
          match ChessJS.undo g2 with
          | some (_, g4) => g4
          | none => g2
        else g2
      { s with
        game := g3
        fen := E.fen g3.pos
        moveHistory := ChessJS.historySan g3
        gameStatus := .playing
        currentTurn := if E.turn g3.pos = "w" then "white" else "black"
        selectedSquare := none
        possibleMoves := []
        lastMove := none }
  | .setGameStatus p => { s with gameStatus := p }
  | .loadGame p => applyLoad s p

/-- The AI personality/difficulty mapping of mobile-chess-app.tsx
(lines 495–512): style-based only when the difficulty is `style` *and* a
profile is attached; the initialiser `defensive-tactical` survives when
no branch fires. -/
def choosePersonality (difficulty : Difficulty) (playerStyle : Option PlayerStyle) :
    AIPersonality :=
  if difficulty = .style && playerStyle.isSome then .styleBased
  else if difficulty = .easy then .defensiveTactical
  else if difficulty = .medium then .balanced
  else if difficulty = .hard then .aggressive
  else .defensiveTactical

/-! Documented chess.js facts about the game-over predicates, used to
restate the reducer's status computation in terms of the legal-move set
and check: checkmate is "no legal moves while in check", stalemate is
"no legal moves while not in check", and a position without legal moves
is always game over. -/

/-- Laws tying the chess.js game-over predicates together. -/
structure EngineLaws {Pos : Type} (E : Engine Pos) : Prop where
  mate_iff : ∀ p, E.isCheckmate p = true ↔ (E.legalMoves p = [] ∧ E.inCheck p = true)
  stale_iff : ∀ p, E.isStalemate p = true ↔ (E.legalMoves p = [] ∧ E.inCheck p = false)
  over_of_empty : ∀ p, E.legalMoves p = [] → E.isGameOver p = true

/-! ### Concrete instances used by witnesses and counterexamples -/

/-- Well-formed square name `a1`–`h8`, stated over character codes. -/
def validSquareStr (s : String) : Bool :=
  match s.data with
  | [f, r] => (97 ≤ f.toNat && f.toNat ≤ 104) && (49 ≤ r.toNat && r.toNat ≤ 56)
  | _ => false

/-- Well-formedness of a snapshot: every move and board entry names a
real square (always true for chess.js outputs). -/
def snapWF (g : Snap) : Bool :=
  g.moves.all (fun m => validSquareStr m.toSq && validSquareStr m.fromSq) &&
  g.board.all (fun row => row.all (fun osq =>
    match osq with
    | some sq => validSquareStr sq.sqName
    | none => true))

/-- A three-position toy rules engine: `start` has the single legal move
`e4` leading to `mated` (a checkmate), and `stuck` is a stalemate. -/
inductive TPos where
  | start
  | mated
  | stuck
deriving DecidableEq

/-- The single legal move of the toy engine's start position. -/
def e4Move : VMove :=
  { fromSq := "e2", toSq := "e4", piece := "p", color := "w"
    captured := none, promotion := none, san := "e4" }

/-- The toy rules engine. -/
def toyEngine : Engine TPos :=
  { initPos := .start
    parseFen := fun f => if f = "FEN0" then .start else if f = "FEN1" then .mated else .stuck
    fen := fun p => match p with | .start => "FEN0" | .mated => "FEN1" | .stuck => "FEN2"
    legalMoves := fun p => match p with | .start => [e4Move] | _ => []
    applyMove := fun p _ => match p with | .start => .mated | _ => p
    pieceAt := fun p sq =>
      match p with
      | .start => if sq = "e2" then some ⟨"p", "w"⟩ else none
      | _ => none
    turn := fun p => match p with | .start => "w" | _ => "b"
    isGameOver := fun p => match p with | .start => false | _ => true
    isCheckmate := fun p => match p with | .mated => true | _ => false
    isStalemate := fun p => match p with | .stuck => true | _ => false
    inCheck := fun p => match p with | .mated => true | _ => false }

/-- The state reached from the initial toy state by playing `e2e4`,
computed by hand for the C4 witness. -/
def c4WitState : GameState TPos :=
  { game := ⟨.mated, [(.start, e4Move)]⟩
    fen := "FEN1"
    moveHistory := ["e4"]
    gameStatus := .checkmate
    difficulty := .medium
    playerColor := "white"
    currentTurn := "black"
    selectedSquare := none
    possibleMoves := []
    lastMove := some ⟨"e2", "e4", none⟩
    capturedPieces := ⟨[], []⟩
    playerStyle := none }

/-- A sample style profile. -/
def psDemo : PlayerStyle :=
  { name := "Ann"
    totalGames := 1
    averageGameLength := 30
    openingPreferences := []
    pieceActivity := ⟨0, 0, 0, 0, 0⟩
    tacticalPatterns := ⟨0, 0, 0, 0⟩
    endgameStyle := ⟨0, 0, 0⟩
    aggressiveness := 50
    positionalVsTactical := 50 }

/-- A checkmating queen capture (Scholar's mate pattern). -/
def qf7Mate : VMove :=
  { fromSq := "h5", toSq := "f7", piece := "q", color := "w"
    captured := some "p", promotion := none, san := "Qxf7#" }

/-- A central pawn push. -/
def d4Push : VMove :=
  { fromSq := "d2", toSq := "d4", piece := "p", color := "w"
    captured := none, promotion := none, san := "d4" }

/-- Snapshot after six plies where the mate `Qxf7#` and the push `d4`
are both available (the legal-move list is truncated to the two moves
the refutation needs; the scorers read nothing else). -/
def ceSnap : Snap :=
  { moves := [qf7Mate, d4Push]
    histMoves := [e4Move, e4Move, e4Move, e4Move, e4Move, e4Move]
    turn := "w"
    board := [] }

/-- A checkmating queen move for the C6 witness. -/
def qh5Mate : VMove :=
  { fromSq := "d1", toSq := "h5", piece := "q", color := "w"
    captured := none, promotion := none, san := "Qh5#" }

/-- A knight development move for the C6 witness. -/
def nc3Dev : VMove :=
  { fromSq := "b1", toSq := "c3", piece := "n", color := "w"
    captured := none, promotion := none, san := "Nc3" }

/-- Snapshot with a mate available, for the C6 witness. -/
def c6Snap : Snap :=
  { moves := [qh5Mate, nc3Dev]
    histMoves := []
    turn := "w"
    board := [] }

/-- Two parsed games used to exercise `analyzePlayerStyle`. -/
def demoGames : List ParsedGame :=
  [⟨["e4", "e5"], "1-0", "Ann", "Bob", none, none, none⟩,
   ⟨["d4"], "0-1", "Carl", "Dana", none, none, none⟩]

/-! ## Theorems -/

/-- The toy engine satisfies the chess.js game-over laws. -/
lemma toyEngineLaws : EngineLaws toyEngine := by
  refine ⟨fun p => ?_, fun p => ?_, fun p => ?_⟩ <;> cases p <;> simp [toyEngine, e4Move]

/-- The `UNDO_MOVE` branch always returns the state unchanged: the
chess.js instance it operates on is freshly constructed from the FEN
text, hence carries no undo history, and `undo()` yields `null`. -/
lemma gameReducer_undo_eq {Pos : Type} (E : Engine Pos) (s : GameState Pos) :
    gameReducer E s .undoMove = s := rfl

/-- C3: the claim says a state with nonempty `moveHistory` has its most
recent move removed by `UNDO_MOVE`; in the code `UNDO_MOVE` is a no-op
on every state whatsoever, because `new Chess(state.fen)` starts with an
empty internal history and `undo()` therefore returns `null`. -/
theorem undoMove_always_noop {Pos : Type} (E : Engine Pos) (s : GameState Pos) :
    gameReducer E s .undoMove = s :=
  gameReducer_undo_eq E s

/-- C1: evaluating apply-then-undo at a concrete input.  From the initial
state, playing the legal move `e2e4` and then dispatching `UNDO_MOVE`
leaves the position text at the post-move FEN and the history at
`["e4"]`; the prior state had FEN `FEN0` and an empty history, so neither
is restored. -/
theorem makeMove_then_undo_not_restored :
    (gameReducer toyEngine
        (gameReducer toyEngine (initialState toyEngine) (.makeMove "e2" "e4" none))
        .undoMove).fen = "FEN1"
    ∧ (gameReducer toyEngine
        (gameReducer toyEngine (initialState toyEngine) (.makeMove "e2" "e4" none))
        .undoMove).moveHistory = ["e4"]
    ∧ (initialState toyEngine).fen = "FEN0"
    ∧ (initialState toyEngine).moveHistory = ([] : List String)
    ∧ ("FEN1" : String) ≠ "FEN0" := by
  decide

/-- C2: a `MAKE_MOVE` whose from/to pair matches no legal move of the
current position returns the state unchanged except for the cleared
transient selection. -/
theorem makeMove_illegal_frame {Pos : Type} (E : Engine Pos) (s : GameState Pos)
    (f t : String) (promo : Option String)
    (h : ∀ m ∈ E.legalMoves (E.parseFen s.fen), ¬(m.fromSq = f ∧ m.toSq = t)) :
    gameReducer E s (.makeMove f t promo) = clearSelection s := by
  have hfind : (E.legalMoves (ChessJS.newFromFen E s.fen).pos).find?
      (fun m => m.fromSq = f && m.toSq = t) = none := by
    rw [List.find?_eq_none]
    intro m hm
    have := h m hm
    simp only [Bool.and_eq_true, decide_eq_true_eq]
    tauto
  show (makeMoveCore E s f t promo).getD (clearSelection s) = clearSelection s
  simp only [makeMoveCore, hfind, Option.getD_none]

/-- Witness for C2 at a concrete input: `a1a2` matches no legal move of
the toy start position. -/
theorem makeMove_illegal_frame_witness :
    gameReducer toyEngine (initialState toyEngine) (.makeMove "a1" "a2" none) =
      clearSelection (initialState toyEngine) :=
  makeMove_illegal_frame toyEngine (initialState toyEngine) "a1" "a2" none (by decide)

/-- C7 counterexample: attaching a style profile and then setting a fixed
difficulty leaves the profile attached — `SET_DIFFICULTY` does not clear
`playerStyle`, so a state with both a fixed difficulty and an attached
profile is reachable. -/
theorem setDifficulty_keeps_playerStyle :
    (gameReducer toyEngine
        (gameReducer toyEngine (initialState toyEngine) (.setPlayerStyle (some psDemo)))
        (.setDifficulty .hard)).playerStyle = some psDemo
    ∧ (gameReducer toyEngine
        (gameReducer toyEngine (initialState toyEngine) (.setPlayerStyle (some psDemo)))
        (.setDifficulty .hard)).difficulty = .hard := by
  decide

/-- C7 as amended: `SET_PLAYER_STYLE` with a profile attaches it and
switches the difficulty to `style` (clearing it resets the difficulty to
`medium`); `SET_DIFFICULTY` changes only the difficulty and leaves an
attached profile in place; exclusivity holds at move-selection time
only — the style-based personality is chosen exactly when the difficulty
is `style` and a profile is attached. -/
theorem style_and_difficulty_config {Pos : Type} (E : Engine Pos) (s : GameState Pos)
    (p : PlayerStyle) (d : Difficulty) :
    (gameReducer E s (.setPlayerStyle (some p))).playerStyle = some p
    ∧ (gameReducer E s (.setPlayerStyle (some p))).difficulty = .style
    ∧ (gameReducer E s (.setPlayerStyle none)).playerStyle = none
    ∧ (gameReducer E s (.setPlayerStyle none)).difficulty = .medium
    ∧ (gameReducer E s (.setDifficulty d)).difficulty = d
    ∧ (gameReducer E s (.setDifficulty d)).playerStyle = s.playerStyle
    ∧ (choosePersonality (gameReducer E s (.setDifficulty d)).difficulty
          (gameReducer E s (.setDifficulty d)).playerStyle = .styleBased
        ↔ (d = .style ∧ s.playerStyle.isSome = true)) := by
  refine ⟨rfl, rfl, rfl, rfl, rfl, rfl, ?_⟩
  show choosePersonality d s.playerStyle = .styleBased ↔ _
  cases d <;> cases s.playerStyle <;> simp [choosePersonality]

/-- On the success path of `MAKE_MOVE`, the resulting status is the
source's game-over cascade evaluated at the new position, and the
captured lists only grow by a suffix. -/
lemma makeMoveCore_some_spec {Pos : Type} (E : Engine Pos) (s : GameState Pos)
    (f t : String) (promo : Option String) (s' : GameState Pos)
    (h : makeMoveCore E s f t promo = some s') :
    s'.gameStatus = statusAfter E s'.game.pos
    ∧ (∃ w2 b2, s'.capturedPieces.white = s.capturedPieces.white ++ w2
        ∧ s'.capturedPieces.black = s.capturedPieces.black ++ b2) := by
  have hext : ∀ (cp : CapturedPieces) (md : VMove),
      ∃ w2 b2, (updateCaptured cp md).white = cp.white ++ w2
        ∧ (updateCaptured cp md).black = cp.black ++ b2 := by
    intro cp md
    unfold updateCaptured
    cases md.captured with
    | none => exact ⟨[], [], by simp, by simp⟩
    | some cap =>
      by_cases hcol : md.color = "w"
      · exact ⟨[], [(if md.color = "w" then "b" else "w") ++ cap.toUpper],
          by simp [hcol], by simp [hcol]⟩
      · exact ⟨[(if md.color = "w" then "b" else "w") ++ cap.toUpper], [],
          by simp [hcol], by simp [hcol]⟩
  unfold makeMoveCore at h
  simp only [] at h
  split at h
  · exact absurd h (by simp)
  · split at h
    · exact absurd h (by simp)
    · rw [Option.some.injEq] at h
      subst h
      exact ⟨rfl, hext _ _⟩

/-- C10: `UNDO_MOVE` leaves the captured-pieces mapping exactly as it
was; `RESET_GAME` empties it; and every other reducer action apart from
`LOAD_GAME` can only append to the captured lists, so reset is the only
state-machine operation that empties a nonempty captured list. -/
theorem captured_pieces_frame {Pos : Type} (E : Engine Pos) (s : GameState Pos)
    (a : GameAction Pos)
    (hload : a.isLoadGame = false) (hreset : a.isResetGame = false) :
    (gameReducer E s .undoMove).capturedPieces = s.capturedPieces
    ∧ (gameReducer E s .resetGame).capturedPieces = ⟨[], []⟩
    ∧ (∃ w2 b2, (gameReducer E s a).capturedPieces.white = s.capturedPieces.white ++ w2
        ∧ (gameReducer E s a).capturedPieces.black = s.capturedPieces.black ++ b2) := by
  refine ⟨by rw [gameReducer_undo_eq], rfl, ?_⟩
  cases a with
  | makeMove f t promo =>
    show ∃ w2 b2, ((makeMoveCore E s f t promo).getD (clearSelection s)).capturedPieces.white = _
        ∧ ((makeMoveCore E s f t promo).getD (clearSelection s)).capturedPieces.black = _
    cases hm : makeMoveCore E s f t promo with
    | none => exact ⟨[], [], by simp [clearSelection], by simp [clearSelection]⟩
    | some s' =>
      obtain ⟨-, w2, b2, hw, hb⟩ := makeMoveCore_some_spec E s f t promo s' hm
      exact ⟨w2, b2, by simpa using hw, by simpa using hb⟩
  | setSelectedSquare p => exact ⟨[], [], by simp [gameReducer], by simp [gameReducer]⟩
  | setPossibleMoves p => exact ⟨[], [], by simp [gameReducer], by simp [gameReducer]⟩
  | setDifficulty p => exact ⟨[], [], by simp [gameReducer], by simp [gameReducer]⟩
  | setPlayerColor p => exact ⟨[], [], by simp [gameReducer], by simp [gameReducer]⟩
  | setPlayerStyle p => exact ⟨[], [], by simp [gameReducer], by simp [gameReducer]⟩
  | resetGame => exact absurd hreset (by simp [GameAction.isResetGame])
  | undoMove => exact ⟨[], [], by rw [gameReducer_undo_eq]; simp, by rw [gameReducer_undo_eq]; simp⟩
  | setGameStatus p => exact ⟨[], [], by simp [gameReducer], by simp [gameReducer]⟩
  | loadGame p => exact absurd hload (by simp [GameAction.isLoadGame])

/-- Witness for C10 at a concrete input (`UNDO_MOVE` on the toy initial
state). -/
theorem captured_pieces_frame_witness :
    (gameReducer toyEngine (initialState toyEngine) .undoMove).capturedPieces =
        (initialState toyEngine).capturedPieces
    ∧ (gameReducer toyEngine (initialState toyEngine) .resetGame).capturedPieces = ⟨[], []⟩
    ∧ (∃ w2 b2,
        (gameReducer toyEngine (initialState toyEngine) .undoMove).capturedPieces.white =
          (initialState toyEngine).capturedPieces.white ++ w2
        ∧ (gameReducer toyEngine (initialState toyEngine) .undoMove).capturedPieces.black =
          (initialState toyEngine).capturedPieces.black ++ b2) :=
  captured_pieces_frame toyEngine (initialState toyEngine) .undoMove rfl rfl

/-- Restatement of the game-over cascade in terms of the legal-move set
and check, given the chess.js laws. -/
lemma statusAfter_iffs {Pos : Type} (E : Engine Pos) (hL : EngineLaws E) (q : Pos) :
    (statusAfter E q = .checkmate ↔ (E.legalMoves q = [] ∧ E.inCheck q = true))
    ∧ (statusAfter E q = .stalemate ↔ (E.legalMoves q = [] ∧ E.inCheck q = false))
    ∧ (statusAfter E q = .draw ↔ (E.isGameOver q = true ∧ E.legalMoves q ≠ []))
    ∧ (statusAfter E q = .playing ↔ E.isGameOver q = false) := by
  cases hgo : E.isGameOver q with
  | false =>
    have hmv : E.legalMoves q ≠ [] := by
      intro hemp
      rw [hL.over_of_empty q hemp] at hgo
      cases hgo
    simp [statusAfter, hgo, hmv]
  | true =>
    cases hcm : E.isCheckmate q with
    | true =>
      obtain ⟨hemp, hchk⟩ := (hL.mate_iff q).mp hcm
      simp [statusAfter, hgo, hcm, hemp, hchk]
    | false =>
      cases hsl : E.isStalemate q with
      | true =>
        obtain ⟨hemp, hchk⟩ := (hL.stale_iff q).mp hsl
        simp [statusAfter, hgo, hcm, hsl, hemp, hchk]
      | false =>
        have hmv : E.legalMoves q ≠ [] := by
          intro hemp
          cases hc : E.inCheck q with
          | true =>
            have := (hL.mate_iff q).mpr ⟨hemp, hc⟩
            rw [hcm] at this; cases this
          | false =>
            have := (hL.stale_iff q).mpr ⟨hemp, hc⟩
            rw [hsl] at this; cases this
        simp [statusAfter, hgo, hcm, hsl, hmv]

/-- C4: after every successful `MAKE_MOVE`, the status is recomputed from
the resulting position with the fixed priority of the source's cascade:
checkmate exactly when the new side to move has no legal moves while in
check, stalemate exactly when it has no legal moves while not in check,
draw exactly for every other game-over condition, and playing otherwise. -/
theorem makeMove_status_cascade {Pos : Type} (E : Engine Pos) (hL : EngineLaws E)
    (s : GameState Pos) (f t : String) (promo : Option String) (s' : GameState Pos)
    (h : makeMoveCore E s f t promo = some s') :
    (s'.gameStatus = .checkmate ↔
        (E.legalMoves s'.game.pos = [] ∧ E.inCheck s'.game.pos = true))
    ∧ (s'.gameStatus = .stalemate ↔
        (E.legalMoves s'.game.pos = [] ∧ E.inCheck s'.game.pos = false))
    ∧ (s'.gameStatus = .draw ↔
        (E.isGameOver s'.game.pos = true ∧ E.legalMoves s'.game.pos ≠ []))
    ∧ (s'.gameStatus = .playing ↔ E.isGameOver s'.game.pos = false) := by
  obtain ⟨hst, -⟩ := makeMoveCore_some_spec E s f t promo s' h
  rw [hst]
  exact statusAfter_iffs E hL s'.game.pos

/-- Witness for C4 at a concrete input: playing `e2e4` on the toy engine
succeeds and reaches a checkmate position. -/
theorem makeMove_status_cascade_witness :
    makeMoveCore toyEngine (initialState toyEngine) "e2" "e4" none = some c4WitState
    ∧ ((c4WitState.gameStatus = .checkmate ↔
          (toyEngine.legalMoves c4WitState.game.pos = []
            ∧ toyEngine.inCheck c4WitState.game.pos = true))
      ∧ (c4WitState.gameStatus = .stalemate ↔
          (toyEngine.legalMoves c4WitState.game.pos = []
            ∧ toyEngine.inCheck c4WitState.game.pos = false))
      ∧ (c4WitState.gameStatus = .draw ↔
          (toyEngine.isGameOver c4WitState.game.pos = true
            ∧ toyEngine.legalMoves c4WitState.game.pos ≠ []))
      ∧ (c4WitState.gameStatus = .playing ↔
          toyEngine.isGameOver c4WitState.game.pos = false)) :=
  ⟨by decide,
    makeMove_status_cascade toyEngine toyEngineLaws (initialState toyEngine)
      "e2" "e4" none c4WitState (by decide)⟩

/-! Lemmas about the shared sort/slice/pick tail of the four personality
scorers. -/

lemma mem_insertDesc {x y : SM} {l : List SM} :
    y ∈ insertDesc x l ↔ y = x ∨ y ∈ l := by
  induction l with
  | nil => simp [insertDesc]
  | cons a as ih =>
    by_cases hlt : a.score < x.score
    · simp [insertDesc, hlt]
    · simp [insertDesc, hlt, ih]
      tauto

lemma length_insertDesc (x : SM) (l : List SM) :
    (insertDesc x l).length = l.length + 1 := by
  induction l with
  | nil => rfl
  | cons a as ih =>
    by_cases hlt : a.score < x.score
    · simp [insertDesc, hlt]
    · simp [insertDesc, hlt, ih]

lemma mem_sortDesc {y : SM} {l : List SM} : y ∈ sortDesc l ↔ y ∈ l := by
  induction l with
  | nil => simp [sortDesc]
  | cons a as ih => simp [sortDesc, mem_insertDesc, ih]

lemma length_sortDesc (l : List SM) : (sortDesc l).length = l.length := by
  induction l with
  | nil => rfl
  | cons a as ih => simp [sortDesc, length_insertDesc, ih]

lemma pairwise_insertDesc (x : SM) {l : List SM}
    (h : l.Pairwise (fun a b => b.score ≤ a.score)) :
    (insertDesc x l).Pairwise (fun a b => b.score ≤ a.score) := by
  induction l with
  | nil => simp [insertDesc]
  | cons a as ih =>
    rw [List.pairwise_cons] at h
    by_cases hlt : a.score < x.score
    · rw [insertDesc, if_pos hlt, List.pairwise_cons]
      refine ⟨?_, List.pairwise_cons.mpr h⟩
      intro b hb
      rcases List.mem_cons.mp hb with hb | hb
      · exact le_of_lt (hb ▸ hlt)
      · exact le_trans (h.1 b hb) (le_of_lt hlt)
    · rw [insertDesc, if_neg hlt, List.pairwise_cons]
      refine ⟨?_, ih h.2⟩
      intro b hb
      rcases mem_insertDesc.mp hb with hb | hb
      · exact hb ▸ (le_of_not_lt hlt)
      · exact h.1 b hb

lemma pairwise_sortDesc (l : List SM) :
    (sortDesc l).Pairwise (fun a b => b.score ≤ a.score) := by
  induction l with
  | nil => simp [sortDesc]
  | cons a as ih => exact pairwise_insertDesc a ih

/-- The head of the descending sort dominates every element. -/
lemma sortDesc_head_ge {l : List SM} {h : SM} {t : List SM}
    (heq : sortDesc l = h :: t) {y : SM} (hy : y ∈ l) : y.score ≤ h.score := by
  have hmem : y ∈ sortDesc l := mem_sortDesc.mpr hy
  rw [heq] at hmem
  rcases List.mem_cons.mp hmem with rfl | hmem
  · exact le_refl _
  · have hp := pairwise_sortDesc l
    rw [heq, List.pairwise_cons] at hp
    exact hp.1 y hmem

lemma enumScored_length (l : List VMove) (sc : Nat → VMove → ℚ) :
    (enumScored l sc).length = l.length := by
  simp [enumScored]

lemma mem_enumScored {sm : SM} {l : List VMove} {sc : Nat → VMove → ℚ}
    (h : sm ∈ enumScored l sc) : sm.mv ∈ l := by
  unfold enumScored at h
  obtain ⟨p, hp, hsm⟩ := List.mem_map.mp h
  have : l.get? p.1 = some p.2 := List.mem_enum_iff_get?.mp hp
  have hmem : p.2 ∈ l := List.get?_mem this
  rw [← hsm]
  exact hmem

/-- The pick always lands inside the scored list. -/
lemma pickTopFraction_mem {scored : List SM} (frac pickR : ℚ)
    (hne : scored ≠ []) (h0 : 0 ≤ pickR) (h1 : pickR < 1) :
    ∃ sm ∈ scored, pickTopFraction scored frac pickR = some sm.mv := by
  have hslen : (sortDesc scored).length = scored.length := length_sortDesc _
  have hpos : 0 < scored.length := List.length_pos.mpr hne
  set tc := max 1 (Int.toNat (Int.floor ((scored.length : ℚ) * frac))) with htc
  set top := (sortDesc scored).take tc with htop
  have htl : 0 < top.length := by
    rw [htop, List.length_take, hslen]
    have h1' : 1 ≤ tc := le_max_left _ _
    omega
  have hflt : Int.floor (pickR * (top.length : ℚ)) < (top.length : Int) := by
    apply Int.floor_lt.mpr
    push_cast
    exact mul_lt_of_lt_one_left (by exact_mod_cast htl) h1
  have hfnn : 0 ≤ Int.floor (pickR * (top.length : ℚ)) :=
    Int.floor_nonneg.mpr (mul_nonneg h0 (by positivity))
  set idx := Int.toNat (Int.floor (pickR * (top.length : ℚ))) with hidxdef
  have hidx : idx < top.length := by omega
  have hget : top.get? idx = some (top.get ⟨idx, hidx⟩) := List.get?_eq_get hidx
  refine ⟨top.get ⟨idx, hidx⟩, ?_, ?_⟩
  · exact mem_sortDesc.mp (List.take_subset tc _ (List.get_mem top idx hidx))
  · show ((sortDesc scored).take _ |>.get? _).map SM.mv = _
    rw [← htc, ← htop, ← hidxdef, hget]
    rfl

/-- A single legal move is always the one picked. -/
lemma pickTopFraction_singleton (x : SM) (frac pickR : ℚ)
    (h0 : 0 ≤ pickR) (h1 : pickR < 1) :
    pickTopFraction [x] frac pickR = some x.mv := by
  have hsort : sortDesc [x] = [x] := rfl
  have htake : ∀ n, 1 ≤ n → ([x] : List SM).take n = [x] := by
    intro n hn
    exact List.take_of_length_le (by simpa using hn)
  show ((sortDesc [x]).take _ |>.get? _).map SM.mv = _
  rw [hsort, htake _ (le_max_left _ _)]
  have hfl : Int.floor (pickR * (([x] : List SM).length : ℚ)) = 0 := by
    rw [Int.floor_eq_zero_iff]
    constructor
    · simpa using h0
    · simpa using h1
  rw [hfl]
  rfl

/-- Specification of the shared dispatch tail on a nonempty move list. -/
lemma dispatch_spec (l : List VMove) (sc : Nat → VMove → ℚ) (frac pickR : ℚ)
    (h0 : 0 ≤ pickR) (h1 : pickR < 1) (hne : l ≠ []) :
    pickTopFraction (enumScored l sc) frac pickR ≠ none
    ∧ (∀ mv, pickTopFraction (enumScored l sc) frac pickR = some mv → mv ∈ l)
    ∧ (∀ mv, l = [mv] → pickTopFraction (enumScored l sc) frac pickR = some mv) := by
  have hscne : enumScored l sc ≠ [] := by
    intro habs
    have := enumScored_length l sc
    rw [habs] at this
    exact hne (List.length_eq_zero.mp this.symm)
  obtain ⟨sm, hsm, heq⟩ := pickTopFraction_mem frac pickR hscne h0 h1
  refine ⟨by rw [heq]; exact Option.some_ne_none _, ?_, ?_⟩
  · intro mv hmv
    rw [heq, Option.some.injEq] at hmv
    exact hmv ▸ mem_enumScored hsm
  · intro mv hl
    subst hl
    have hsing : enumScored [mv] sc = [⟨mv, sc 0 mv⟩] := rfl
    rw [hsing]
    exact pickTopFraction_singleton _ frac pickR h0 h1

/-- C5: for every snapshot, configuration and outcome of the internal
randomness, `getAIMove` returns `none` exactly when the position has no
legal moves; any returned move is legal; and a single legal move is
always the one returned. -/
theorem getAIMove_contract (g : Snap) (config : AIConfig) (jitAt : Nat → ℚ)
    (pickR : ℚ) (h0 : 0 ≤ pickR) (h1 : pickR < 1) :
    (getAIMove g config jitAt pickR = none ↔ g.moves = [])
    ∧ (∀ mv, getAIMove g config jitAt pickR = some mv → mv ∈ g.moves)
    ∧ (∀ mv, g.moves = [mv] → getAIMove g config jitAt pickR = some mv) := by
  cases hl : g.moves with
  | nil =>
    have hres : getAIMove g config jitAt pickR = none := by
      unfold getAIMove
      rw [hl]
      rfl
    refine ⟨by simp [hres], ?_, ?_⟩
    · intro mv hmv
      rw [hres] at hmv
      cases hmv
    · intro mv hmv
      exact absurd hmv (by simp)
  | cons a as =>
    have hne : a :: as ≠ ([] : List VMove) := List.cons_ne_nil a as
    have hdisp : ∃ sc : Nat → VMove → ℚ, ∃ frac : ℚ,
        getAIMove g config jitAt pickR = pickTopFraction (enumScored (a :: as) sc) frac pickR := by
      unfold getAIMove getDefensiveTacticalMove getCarlsenStyleMove getPositionalMove
        getStyleBasedMove
      rw [hl]
      cases config.personality with
      | defensiveTactical => exact ⟨_, _, rfl⟩
      | aggressive => exact ⟨_, _, rfl⟩
      | positional => exact ⟨_, _, rfl⟩
      | balanced => exact ⟨_, _, rfl⟩
      | styleBased =>
        cases config.playerStyle with
        | some ps => exact ⟨_, _, rfl⟩
        | none => exact ⟨_, _, rfl⟩
    obtain ⟨sc, frac, heq⟩ := hdisp
    obtain ⟨hnn, hmem, hsing⟩ := dispatch_spec (a :: as) sc frac pickR h0 h1 hne
    refine ⟨?_, ?_, ?_⟩
    · rw [heq]
      exact ⟨fun habs => absurd habs hnn, fun habs => absurd habs hne⟩
    · intro mv hmv
      rw [heq] at hmv
      exact hmem mv hmv
    · intro mv hmv
      rw [heq]
      exact hsing mv hmv

/-- Witness for C5 at a concrete input: the toy start snapshot, balanced
personality, zero randomness. -/
theorem getAIMove_contract_witness :
    (getAIMove c6Snap ⟨.balanced, 400, none⟩ (fun _ => 0) 0 = none ↔ c6Snap.moves = [])
    ∧ (∀ mv, getAIMove c6Snap ⟨.balanced, 400, none⟩ (fun _ => 0) 0 = some mv →
        mv ∈ c6Snap.moves)
    ∧ (∀ mv, c6Snap.moves = [mv] →
        getAIMove c6Snap ⟨.balanced, 400, none⟩ (fun _ => 0) 0 = some mv) :=
  getAIMove_contract c6Snap ⟨.balanced, 400, none⟩ (fun _ => 0) 0 (by norm_num) (by norm_num)

/-! Interval bounds for the defensive scoring terms. -/

lemma pieceValuesD_bounds (s : String) : 0 ≤ pieceValuesD s ∧ pieceValuesD s ≤ 9 := by
  unfold pieceValuesD
  split <;> norm_num

lemma dCaptureTerm_bounds (mv : VMove) : 0 ≤ dCaptureTerm mv ∧ dCaptureTerm mv ≤ 18 := by
  cases hc : mv.captured with
  | none => simp [dCaptureTerm, hc]
  | some cap =>
    obtain ⟨h1, h2⟩ := pieceValuesD_bounds cap
    simp only [dCaptureTerm, hc]
    split <;> constructor <;> nlinarith

lemma checkSanTerm_bounds (mv : VMove) : 0 ≤ checkSanTerm mv ∧ checkSanTerm mv ≤ 3 := by
  unfold checkSanTerm
  split <;> norm_num

lemma mateSanTerm_of_mate {mv : VMove} (h : sanHas mv '#' = true) :
    mateSanTerm mv = 100 := by
  simp [mateSanTerm, h]

lemma mateSanTerm_of_not_mate {mv : VMove} (h : sanHas mv '#' = false) :
    mateSanTerm mv = 0 := by
  simp [mateSanTerm, h]

lemma dDevTerm_bounds (mv : VMove) : 0 ≤ dDevTerm mv ∧ dDevTerm mv ≤ 2 := by
  unfold dDevTerm
  split <;> norm_num

lemma dCentralTerm_bounds (mv : VMove) : 0 ≤ dCentralTerm mv ∧ dCentralTerm mv ≤ 3/2 := by
  unfold dCentralTerm
  split <;> norm_num

lemma dCastleTerm_bounds (mv : VMove) : 0 ≤ dCastleTerm mv ∧ dCastleTerm mv ≤ 4 := by
  unfold dCastleTerm
  split <;> norm_num

lemma dSamePieceTerm_bounds (g : Snap) (mv : VMove) :
    -1 ≤ dSamePieceTerm g mv ∧ dSamePieceTerm g mv ≤ 0 := by
  unfold dSamePieceTerm
  split <;> norm_num

lemma dKingEndTerm_bounds (g : Snap) (mv : VMove) :
    0 ≤ dKingEndTerm g mv ∧ dKingEndTerm g mv ≤ 1 := by
  unfold dKingEndTerm
  split <;> norm_num

lemma dPawnTerm_bounds (g : Snap) (mv : VMove) :
    0 ≤ dPawnTerm g mv ∧ dPawnTerm g mv ≤ 1/2 := by
  simp only [dPawnTerm]
  split_ifs <;> norm_num

/-- A non-checkmating move scores strictly below 32 under the defensive
scorer. -/
lemma defensiveScore_nonMate_lt (g : Snap) {jit : ℚ} (mv : VMove)
    (hj0 : 0 ≤ jit) (hj1 : jit < 1) (hnm : sanHas mv '#' = false) :
    defensiveScore g jit mv < 32 := by
  unfold defensiveScore
  obtain ⟨c1, c2⟩ := dCaptureTerm_bounds mv
  obtain ⟨k1, k2⟩ := checkSanTerm_bounds mv
  have hm := mateSanTerm_of_not_mate hnm
  obtain ⟨d1, d2⟩ := dDevTerm_bounds mv
  obtain ⟨e1, e2⟩ := dCentralTerm_bounds mv
  obtain ⟨f1, f2⟩ := dCastleTerm_bounds mv
  obtain ⟨s1, s2⟩ := dSamePieceTerm_bounds g mv
  obtain ⟨g1, g2⟩ := dKingEndTerm_bounds g mv
  obtain ⟨p1, p2⟩ := dPawnTerm_bounds g mv
  linarith

/-- A checkmating move scores at least 99 under the defensive scorer. -/
lemma defensiveScore_mate_ge (g : Snap) {jit : ℚ} (mv : VMove)
    (hj0 : 0 ≤ jit) (hm : sanHas mv '#' = true) :
    99 ≤ defensiveScore g jit mv := by
  unfold defensiveScore
  obtain ⟨c1, c2⟩ := dCaptureTerm_bounds mv
  obtain ⟨k1, k2⟩ := checkSanTerm_bounds mv
  have hmt := mateSanTerm_of_mate hm
  obtain ⟨d1, d2⟩ := dDevTerm_bounds mv
  obtain ⟨e1, e2⟩ := dCentralTerm_bounds mv
  obtain ⟨f1, f2⟩ := dCastleTerm_bounds mv
  obtain ⟨s1, s2⟩ := dSamePieceTerm_bounds g mv
  obtain ⟨g1, g2⟩ := dKingEndTerm_bounds g mv
  obtain ⟨p1, p2⟩ := dPawnTerm_bounds g mv
  linarith

/-! Membership helpers for the scored list. -/

lemma enumScored_mem_spec {sm : SM} {l : List VMove} {sc : Nat → VMove → ℚ}
    (h : sm ∈ enumScored l sc) : ∃ i, sm.score = sc i sm.mv ∧ sm.mv ∈ l := by
  unfold enumScored at h
  obtain ⟨p, hp, hsm⟩ := List.mem_map.mp h
  have hget : l.get? p.1 = some p.2 := List.mem_enum_iff_get?.mp hp
  refine ⟨p.1, ?_, ?_⟩
  · rw [← hsm]
  · rw [← hsm]
    exact List.get?_mem hget

lemma enumScored_exists {mv : VMove} {l : List VMove} (sc : Nat → VMove → ℚ)
    (h : mv ∈ l) : ∃ sm ∈ enumScored l sc, sm.mv = mv := by
  obtain ⟨i, hi⟩ := List.mem_iff_get?.mp h
  exact ⟨⟨mv, sc i mv⟩, List.mem_map.mpr ⟨(i, mv),
    List.mem_enum_iff_get?.mpr hi, rfl⟩, rfl⟩

/-- If checkmating moves strictly dominate all others, the head of the
descending sort is a checkmating move. -/
lemma sortDesc_head_is_mate (scored : List SM)
    (hsep : ∀ x ∈ scored, ∀ y ∈ scored,
      sanHas x.mv '#' = true → sanHas y.mv '#' = false → y.score < x.score)
    (hex : ∃ x ∈ scored, sanHas x.mv '#' = true) :
    ∃ sm t, sortDesc scored = sm :: t ∧ sanHas sm.mv '#' = true := by
  obtain ⟨x, hx, hxm⟩ := hex
  have hne : scored ≠ [] := fun habs => by rw [habs] at hx; cases hx
  have hlen : 0 < (sortDesc scored).length := by
    rw [length_sortDesc]
    exact List.length_pos.mpr hne
  obtain ⟨sm, t, heq⟩ := List.exists_cons_of_ne_nil (List.length_pos.mp hlen)
  refine ⟨sm, t, heq, ?_⟩
  by_cases hsm : sanHas sm.mv '#' = true
  · exact hsm
  · exfalso
    have hsmem : sm ∈ scored := mem_sortDesc.mp (heq ▸ List.mem_cons_self sm t)
    have hlt : sm.score < x.score :=
      hsep x hx sm hsmem hxm (Bool.not_eq_true _ ▸ Bool.eq_false_iff.mpr hsm)
    have hge : x.score ≤ sm.score := sortDesc_head_ge heq hx
    linarith

/-! Interval bounds for the Carlsen scoring terms; the lower bounds need
the well-formedness of the square names, which holds for every chess.js
output. -/

lemma validSquareStr_spec {s : String} (h : validSquareStr s = true) :
    97 ≤ chCode0 s ∧ chCode0 s ≤ 104 ∧ 1 ≤ rankNum s ∧ rankNum s ≤ 8 := by
  unfold validSquareStr at h
  unfold chCode0 rankNum
  rcases hd : s.data with - | ⟨f, - | ⟨r, - | ⟨c, rest⟩⟩⟩ <;> rw [hd] at h
  · cases h
  · cases h
  · simp only [Bool.and_eq_true, decide_eq_true_eq] at h
    obtain ⟨⟨h1, h2⟩, h3, h4⟩ := h
    refine ⟨?_, ?_, ?_, ?_⟩ <;>
      simp only [List.getD_cons_zero, List.getD_cons_succ] <;> push_cast <;> omega
  · cases h

lemma snapWF_move {g : Snap} {mv : VMove} (h : snapWF g = true) (hm : mv ∈ g.moves) :
    validSquareStr mv.toSq = true ∧ validSquareStr mv.fromSq = true := by
  unfold snapWF at h
  rw [Bool.and_eq_true] at h
  have := List.all_eq_true.mp h.1 mv hm
  rw [Bool.and_eq_true] at this
  exact this

lemma snapWF_board {g : Snap} {x : BoardSq} (h : snapWF g = true)
    (hx : x ∈ g.board.flatten.filterMap id) : validSquareStr x.sqName = true := by
  unfold snapWF at h
  rw [Bool.and_eq_true] at h
  obtain ⟨o, ho, hox⟩ := List.mem_filterMap.mp hx
  obtain ⟨row, hrow, hmem⟩ := List.mem_flatten.mp ho
  have hall := List.all_eq_true.mp (List.all_eq_true.mp h.2 row hrow) o hmem
  cases o with
  | none => cases hox
  | some y =>
    cases hox
    exact hall

lemma pieceValuesC_bounds (s : String) : 0 ≤ pieceValuesC s ∧ pieceValuesC s ≤ 9 := by
  unfold pieceValuesC
  split <;> norm_num

lemma cCaptureTerm_bounds (mv : VMove) : 0 ≤ cCaptureTerm mv ∧ cCaptureTerm mv ≤ 27/2 := by
  cases hc : mv.captured with
  | none =>
    simp only [cCaptureTerm, hc]
    norm_num
  | some cap =>
    obtain ⟨h1, h2⟩ := pieceValuesC_bounds cap
    simp only [cCaptureTerm, hc]
    constructor <;> nlinarith

lemma cKingTerm_le (ie : Bool) (mv : VMove) : cKingTerm ie mv ≤ 7/2 := by
  simp only [cKingTerm]
  split_ifs with h1 h2 h3
  · have := abs_nonneg (9/2 - ((chCode0 mv.toSq - 97 : Int) : ℚ))
    nlinarith
  · norm_num
  · norm_num
  · norm_num

lemma cKingTerm_ge (ie : Bool) (mv : VMove) (hv : validSquareStr mv.toSq = true) :
    -1 ≤ cKingTerm ie mv := by
  obtain ⟨hc1, hc2, -, -⟩ := validSquareStr_spec hv
  simp only [cKingTerm]
  split_ifs with h1 h2 h3
  · have hlo' : (0 : Int) ≤ chCode0 mv.toSq - 97 := by omega
    have hhi' : chCode0 mv.toSq - 97 ≤ (7 : Int) := by omega
    have hlo : (0 : ℚ) ≤ ((chCode0 mv.toSq - 97 : Int) : ℚ) := by exact_mod_cast hlo'
    have hhi : ((chCode0 mv.toSq - 97 : Int) : ℚ) ≤ 7 := by exact_mod_cast hhi'
    have habs : |9/2 - ((chCode0 mv.toSq - 97 : Int) : ℚ)| ≤ 9/2 := by
      rw [abs_le]
      constructor <;> linarith
    nlinarith
  · norm_num
  · norm_num
  · norm_num

lemma cPawnTerm_bounds (g : Snap) (ie : Bool) (mv : VMove) :
    -3/2 ≤ cPawnTerm g ie mv ∧ cPawnTerm g ie mv ≤ 5 := by
  simp only [cPawnTerm]
  split_ifs <;> norm_num

lemma cStrongTerm_bounds (mv : VMove) : 0 ≤ cStrongTerm mv ∧ cStrongTerm mv ≤ 3/2 := by
  cases hs : strongSquaresOf mv.piece with
  | none =>
    simp only [cStrongTerm, hs]
    norm_num
  | some l =>
    simp only [cStrongTerm, hs]
    split <;> norm_num


lemma cCaptureSanTerm_bounds (ie : Bool) (mv : VMove) :
    0 ≤ cCaptureSanTerm ie mv ∧ cCaptureSanTerm ie mv ≤ 3/2 := by
  unfold cCaptureSanTerm
  split <;> norm_num

lemma cEndKingTerm_bounds (ie : Bool) (mv : VMove) :
    0 ≤ cEndKingTerm ie mv ∧ cEndKingTerm ie mv ≤ 3/2 := by
  unfold cEndKingTerm
  split <;> norm_num

lemma cRookTerm_bounds (g : Snap) (ie : Bool) (mv : VMove) :
    0 ≤ cRookTerm g ie mv ∧ cRookTerm g ie mv ≤ 5/2 := by
  simp only [cRookTerm]
  split_ifs <;> norm_num

lemma cProximityTerm_le (g : Snap) (mv : VMove) : cProximityTerm g mv ≤ 12/5 := by
  simp only [cProximityTerm]
  split_ifs with h1
  · cases hk : findOppKing g with
    | none => norm_num
    | some ksq =>
      set dist : Int := max |chCode0 ksq.sqName - 97 - (chCode0 mv.toSq - 97)|
          |rankNum ksq.sqName - rankNum mv.toSq| with hdist
      have hd0 : (0 : Int) ≤ dist := le_trans (abs_nonneg _) (le_max_left _ _)
      have h8 : ((8 - dist : Int) : ℚ) ≤ 8 :=
        calc ((8 - dist : Int) : ℚ) ≤ ((8 : Int) : ℚ) := Int.cast_le.mpr (by omega)
          _ = 8 := by norm_num
      nlinarith
  · norm_num

lemma cProximityTerm_nonneg (g : Snap) (mv : VMove) (hwf : snapWF g = true)
    (hv : validSquareStr mv.toSq = true) : 0 ≤ cProximityTerm g mv := by
  obtain ⟨ht1, ht2, ht3, ht4⟩ := validSquareStr_spec hv
  simp only [cProximityTerm]
  split_ifs with h1
  · cases hk : findOppKing g with
    | none => norm_num
    | some ksq =>
      have hksq : validSquareStr ksq.sqName = true :=
        snapWF_board hwf (List.mem_of_find?_eq_some hk)
      obtain ⟨hk1, hk2, hk3, hk4⟩ := validSquareStr_spec hksq
      have habs1 : |chCode0 ksq.sqName - 97 - (chCode0 mv.toSq - 97)| ≤ 7 := by
        rw [abs_le]
        omega
      have habs2 : |rankNum ksq.sqName - rankNum mv.toSq| ≤ 7 := by
        rw [abs_le]
        omega
      set dist : Int := max |chCode0 ksq.sqName - 97 - (chCode0 mv.toSq - 97)|
          |rankNum ksq.sqName - rankNum mv.toSq| with hdist
      have hdle : dist ≤ 7 := max_le habs1 habs2
      have h8 : (1 : ℚ) ≤ ((8 - dist : Int) : ℚ) :=
        calc (1 : ℚ) = ((1 : Int) : ℚ) := by norm_num
          _ ≤ ((8 - dist : Int) : ℚ) := Int.cast_le.mpr (by omega)
      nlinarith
  · norm_num

/-- A non-checkmating move scores strictly below 37 under the Carlsen
scorer. -/
lemma carlsenScore_nonMate_lt (g : Snap) (ie : Bool) {jit : ℚ} (mv : VMove)
    (hj0 : 0 ≤ jit) (hj1 : jit < 1) (hnm : sanHas mv '#' = false) :
    carlsenScore g ie jit mv < 37 := by
  unfold carlsenScore
  obtain ⟨c1, c2⟩ := cCaptureTerm_bounds mv
  have k2 := cKingTerm_le ie mv
  obtain ⟨p1, p2⟩ := cPawnTerm_bounds g ie mv
  obtain ⟨s1, s2⟩ := cStrongTerm_bounds mv
  obtain ⟨q1, q2⟩ := checkSanTerm_bounds mv
  have hm := mateSanTerm_of_not_mate hnm
  obtain ⟨x1, x2⟩ := cCaptureSanTerm_bounds ie mv
  have pr := cProximityTerm_le g mv
  obtain ⟨e1, e2⟩ := cEndKingTerm_bounds ie mv
  obtain ⟨r1, r2⟩ := cRookTerm_bounds g ie mv
  linarith

/-- A checkmating move scores at least 95 under the Carlsen scorer on a
well-formed snapshot. -/
lemma carlsenScore_mate_ge (g : Snap) (ie : Bool) {jit : ℚ} (mv : VMove)
    (hj0 : 0 ≤ jit) (hm : sanHas mv '#' = true)
    (hwf : snapWF g = true) (hv : validSquareStr mv.toSq = true) :
    95 ≤ carlsenScore g ie jit mv := by
  unfold carlsenScore
  obtain ⟨c1, c2⟩ := cCaptureTerm_bounds mv
  have k1 := cKingTerm_ge ie mv hv
  obtain ⟨p1, p2⟩ := cPawnTerm_bounds g ie mv
  obtain ⟨s1, s2⟩ := cStrongTerm_bounds mv
  obtain ⟨q1, q2⟩ := checkSanTerm_bounds mv
  have hmt := mateSanTerm_of_mate hm
  obtain ⟨x1, x2⟩ := cCaptureSanTerm_bounds ie mv
  have pr := cProximityTerm_nonneg g mv hwf hv
  obtain ⟨e1, e2⟩ := cEndKingTerm_bounds ie mv
  obtain ⟨r1, r2⟩ := cRookTerm_bounds g ie mv
  linarith

/-- C6 as amended: under the defensive-tactical scorer and under the
Carlsen-style scorer (the one used for the aggressive and balanced
personalities and as the no-profile fallback of style-based), the `+100`
checkmate bonus dominates every other term, so whenever a checkmating
move exists the top of the ranked list is a checkmating move.  The
positional and style-based scorers contain no checkmate term (see the
counterexample). -/
theorem mate_tops_defensive_and_carlsen (g : Snap) (jitAt : Nat → ℚ)
    (hjit : ∀ i, 0 ≤ jitAt i ∧ jitAt i < 1)
    (hwf : snapWF g = true)
    (hmate : ∃ mv ∈ g.moves, sanHas mv '#' = true) :
    (∃ sm t, sortDesc (enumScored g.moves (fun i mv => defensiveScore g (jitAt i) mv))
        = sm :: t ∧ sanHas sm.mv '#' = true)
    ∧ (∃ sm t, sortDesc (enumScored g.moves
          (fun i mv => carlsenScore g (snapIsEndgame g) (jitAt i) mv))
        = sm :: t ∧ sanHas sm.mv '#' = true) := by
  obtain ⟨mv0, hmv0, hm0⟩ := hmate
  constructor
  · apply sortDesc_head_is_mate
    · intro x hx y hy hxm hym
      obtain ⟨i, hxs, hxl⟩ := enumScored_mem_spec hx
      obtain ⟨j, hys, hyl⟩ := enumScored_mem_spec hy
      rw [hxs, hys]
      have h99 := defensiveScore_mate_ge g x.mv (hjit i).1 hxm
      have h32 := defensiveScore_nonMate_lt g y.mv (hjit j).1 (hjit j).2 hym
      linarith
    · obtain ⟨sm, hsm, hsmv⟩ := enumScored_exists _ hmv0
      exact ⟨sm, hsm, by rw [hsmv]; exact hm0⟩
  · apply sortDesc_head_is_mate
    · intro x hx y hy hxm hym
      obtain ⟨i, hxs, hxl⟩ := enumScored_mem_spec hx
      obtain ⟨j, hys, hyl⟩ := enumScored_mem_spec hy
      rw [hxs, hys]
      have hv := (snapWF_move hwf hxl).1
      have h95 := carlsenScore_mate_ge g (snapIsEndgame g) x.mv (hjit i).1 hxm hwf hv
      have h37 := carlsenScore_nonMate_lt g (snapIsEndgame g) y.mv (hjit j).1 (hjit j).2 hym
      linarith
    · obtain ⟨sm, hsm, hsmv⟩ := enumScored_exists _ hmv0
      exact ⟨sm, hsm, by rw [hsmv]; exact hm0⟩

/-- Witness for C6 (amended) at a concrete input: the snapshot with
`Qh5#` and `Nc3` available, zero jitter. -/
theorem mate_tops_defensive_and_carlsen_witness :
    (∃ sm t, sortDesc (enumScored c6Snap.moves
        (fun _ mv => defensiveScore c6Snap 0 mv)) = sm :: t ∧ sanHas sm.mv '#' = true)
    ∧ (∃ sm t, sortDesc (enumScored c6Snap.moves
        (fun _ mv => carlsenScore c6Snap (snapIsEndgame c6Snap) 0 mv)) = sm :: t
        ∧ sanHas sm.mv '#' = true) :=
  mate_tops_defensive_and_carlsen c6Snap (fun _ => 0)
    (fun _ => ⟨le_refl 0, by norm_num⟩) (by decide) ⟨qh5Mate, by decide, rfl⟩

/-- C6 counterexample: under the positional personality the scorer has
no checkmate term, and at this snapshot (after six plies, with the mate
`Qxf7#` and the pawn push `d4` legal, zero randomness) `getAIMove`
ranks the non-mating `d4` first and returns it, so the checkmating move
is not placed at the top of the ranked list. -/
theorem positional_personality_ignores_mate :
    (∃ mv ∈ ceSnap.moves, sanHas mv '#' = true)
    ∧ getAIMove ceSnap ⟨.positional, 400, none⟩ (fun _ => 0) 0 = some d4Push
    ∧ sanHas d4Push '#' = false
    ∧ ((sortDesc (enumScored ceSnap.moves
        (fun _ mv => positionalScore ceSnap 0 mv))).head?.map SM.mv) = some d4Push := by
  have hq : positionalScore ceSnap 0 qf7Mate = -2 := by
    have c1 : (qf7Mate.piece = "n" || qf7Mate.piece = "b") = false := by decide
    have c2 : containsSeq ['O', '-', 'O'] qf7Mate.san.data = false := by decide
    have c3 : centralSquares.contains qf7Mate.toSq = false := by decide
    have c4 : (qf7Mate.piece = "q" && decide (ceSnap.histMoves.length < 10)) = true := by decide
    simp only [positionalScore, c1, c2, c3, c4, Bool.false_eq_true, if_false, if_true]
    norm_num
  have hd : positionalScore ceSnap 0 d4Push = 2 := by
    have c1 : (d4Push.piece = "n" || d4Push.piece = "b") = false := by decide
    have c2 : containsSeq ['O', '-', 'O'] d4Push.san.data = false := by decide
    have c3 : centralSquares.contains d4Push.toSq = true := by decide
    have c4 : (d4Push.piece = "q" && decide (ceSnap.histMoves.length < 10)) = false := by decide
    simp only [positionalScore, c1, c2, c3, c4, Bool.false_eq_true, if_false, if_true]
    norm_num
  have hsc : enumScored ceSnap.moves (fun _ mv => positionalScore ceSnap 0 mv)
      = [⟨qf7Mate, -2⟩, ⟨d4Push, 2⟩] := by
    have : enumScored ceSnap.moves (fun _ mv => positionalScore ceSnap 0 mv)
        = [⟨qf7Mate, positionalScore ceSnap 0 qf7Mate⟩,
           ⟨d4Push, positionalScore ceSnap 0 d4Push⟩] := rfl
    rw [this, hq, hd]
  have hsort : sortDesc [(⟨qf7Mate, -2⟩ : SM), ⟨d4Push, 2⟩] = [⟨d4Push, 2⟩, ⟨qf7Mate, -2⟩] := by
    have hlt : ¬((⟨d4Push, 2⟩ : SM).score < (⟨qf7Mate, -2⟩ : SM).score) := by norm_num
    simp [sortDesc, insertDesc, hlt]
  have hfl : Int.floor ((([(⟨qf7Mate, -2⟩ : SM), ⟨d4Push, 2⟩] : List SM).length : ℚ) * (3/10))
      = 0 := by
    rw [show ((([(⟨qf7Mate, -2⟩ : SM), ⟨d4Push, 2⟩] : List SM).length : ℚ) * (3/10))
        = 3/5 by norm_num]
    rw [Int.floor_eq_zero_iff, Set.mem_Ico]
    constructor <;> norm_num
  have hpick : pickTopFraction [(⟨qf7Mate, -2⟩ : SM), ⟨d4Push, 2⟩] (3/10) 0 = some d4Push := by
    simp only [pickTopFraction, hsort, hfl]
    norm_num
  refine ⟨⟨qf7Mate, by decide, by decide⟩, ?_, by decide, ?_⟩
  · show pickTopFraction (enumScored ceSnap.moves
      (fun _ mv => positionalScore ceSnap 0 mv)) (3/10) 0 = some d4Push
    rw [hsc]
    exact hpick
  · rw [hsc, hsort]
    rfl

/-! Lemmas about the PGN splitter and the moves-section regex. -/

lemma splitBEAux_chars {b : List Char} :
    ∀ {cur l : List Char}, b ∈ splitBEAux cur l → ∀ {c}, c ∈ b → c ∈ cur ∨ c ∈ l := by
  intro cur l
  induction l generalizing cur with
  | nil =>
    intro hb c hc
    simp only [splitBEAux, List.mem_singleton] at hb
    subst hb
    exact Or.inl (List.mem_reverse.mp hc)
  | cons a rest ih =>
    intro hb c hc
    simp only [splitBEAux] at hb
    split at hb
    · rcases List.mem_cons.mp hb with hb | hb
      · subst hb
        exact Or.inl (List.mem_reverse.mp hc)
      · rcases ih hb hc with h | h
        · rcases List.mem_singleton.mp h with rfl
          exact Or.inr (List.mem_cons_self _ _)
        · exact Or.inr (List.mem_cons_of_mem a h)
    · rcases ih hb hc with h | h
      · rcases List.mem_cons.mp h with rfl | h
        · exact Or.inr (List.mem_cons_self _ _)
        · exact Or.inl h
      · exact Or.inr (List.mem_cons_of_mem a h)

lemma movesExtract_none {l : List Char} (h : ']' ∉ l) : movesExtract l = none := by
  induction l with
  | nil => rfl
  | cons c rest ih =>
    unfold movesExtract
    rw [if_neg (fun habs => h (by rw [← habs]; exact List.mem_cons_self c rest))]
    exact ih (fun habs => h (List.mem_cons_of_mem c habs))

/-- C8 as amended: every game kept by `parsePGN` has strictly more than
five recognised move tokens, and on input containing no `]` at all (in
particular, no complete header line) the result is empty.  Input with
zero header blocks but a stray `]` before a newline can still produce
games — see the counterexample. -/
theorem parsePGN_filter_and_bracketless (text : String) :
    (∀ g ∈ parsePGN text, 5 < g.moves.length)
    ∧ (']' ∉ text.data → parsePGN text = []) := by
  constructor
  · intro g hg
    unfold parsePGN at hg
    obtain ⟨b, hb, hfb⟩ := List.mem_filterMap.mp hg
    split at hfb
    · split at hfb
      · rw [Option.some.injEq] at hfb
        subst hfb
        assumption
      · cases hfb
    · cases hfb
  · intro hnb
    unfold parsePGN
    apply List.filterMap_eq_nil.mpr
    intro b hb
    have hb' : b ∈ splitBEAux [] text.data := (List.mem_filter.mp hb).1
    have hnb' : ']' ∉ b := by
      intro habs
      rcases splitBEAux_chars hb' habs with h | h
      · cases h
      · exact hnb h
    have hme : movesExtract b = none := movesExtract_none hnb'
    have hpm : parseMoves [] = [] := rfl
    simp [parseGameBlock, hme, hpm]

/-- Witness for C8 (amended) at concrete inputs: a bracket-and-newline
block with six recognised moves is kept whole, and bracket-free text
yields no games. -/
theorem parsePGN_filter_and_bracketless_witness :
    5 < (⟨["d4", "d5", "Nf3", "Nf6", "c4", "e6"], "*", "Unknown", "Unknown",
          none, none, none⟩ : ParsedGame).moves.length
    ∧ parsePGN "no brackets here 1. e4 e5" = [] :=
  ⟨(parsePGN_filter_and_bracketless "]\nd4 d5 Nf3 Nf6 c4 e6").1 _ (by decide),
   (parsePGN_filter_and_bracketless "no brackets here 1. e4 e5").2 (by decide)⟩

/-- C8 counterexample: this input contains zero header blocks (no
`[Key "Value"]` pair at all), yet `parsePGN` returns one game — the
moves-section regex only needs a `]` followed by a newline, which this
input has.  The claim that zero header blocks always yield an empty
sequence is therefore false. -/
theorem parsePGN_no_headers_counterexample :
    parsePGN "]\ne4 e5 Nf3 Nc6 Bb5 a6"
      = [⟨["e4", "e5", "Nf3", "Nc6", "Bb5", "a6"], "*", "Unknown", "Unknown",
          none, none, none⟩]
    ∧ headersOf ("]\ne4 e5 Nf3 Nc6 Bb5 a6").data = [] := by
  decide

/-! Preservation lemmas for the style-profiling fold. -/

lemma pieceActivityUpdate_preserve (st : PlayerStyle) (w : Bool) (mv : String) :
    (pieceActivityUpdate st w mv).totalGames = st.totalGames := by
  unfold pieceActivityUpdate
  split
  · rfl
  · rfl
  · rfl
  · rfl
  · split <;> rfl
  · split <;> rfl

lemma tacticalUpdate_preserve (st : PlayerStyle) (w : Bool) (mv : String) :
    (tacticalUpdate st w mv).totalGames = st.totalGames := by
  unfold tacticalUpdate
  split_ifs <;> rfl

lemma analyzeMove_preserve (a : StyleAcc) (w : Bool) (len i : Nat) (mv : String) :
    (analyzeMove a w len i mv).style.totalGames = a.style.totalGames
    ∧ (analyzeMove a w len i mv).totalMoves = a.totalMoves := by
  unfold analyzeMove
  simp only []
  split
  · exact ⟨rfl, rfl⟩
  · refine ⟨?_, rfl⟩
    show (tacticalUpdate (pieceActivityUpdate a.style _ mv) _ mv).totalGames = _
    rw [tacticalUpdate_preserve, pieceActivityUpdate_preserve]

lemma foldl_analyzeMove_preserve (w : Bool) (len : Nat) (ms : List String)
    (idxs : List Nat) (acc : StyleAcc) :
    ((idxs.foldl (fun a i => analyzeMove a w len i (ms.getD i "")) acc).style.totalGames
        = acc.style.totalGames)
    ∧ ((idxs.foldl (fun a i => analyzeMove a w len i (ms.getD i "")) acc).totalMoves
        = acc.totalMoves) := by
  induction idxs generalizing acc with
  | nil => exact ⟨rfl, rfl⟩
  | cons i is ih =>
    simp only [List.foldl_cons]
    obtain ⟨h1, h2⟩ := ih (analyzeMove acc w len i (ms.getD i ""))
    obtain ⟨h3, h4⟩ := analyzeMove_preserve acc w len i (ms.getD i "")
    exact ⟨h1.trans h3, h2.trans h4⟩

lemma analyzeGame_spec (p : String) (a : StyleAcc) (g : ParsedGame) :
    (analyzeGame p a g).style.totalGames = a.style.totalGames
    ∧ (analyzeGame p a g).totalMoves = a.totalMoves + g.moves.length := by
  unfold analyzeGame
  simp only []
  split
  · obtain ⟨h1, h2⟩ := foldl_analyzeMove_preserve
      (containsSeq (toLowerStr p).data (toLowerStr g.white).data) g.moves.length g.moves
      (List.range (min g.moves.length 80)) _
    exact ⟨h1, h2⟩
  · obtain ⟨h1, h2⟩ := foldl_analyzeMove_preserve
      (containsSeq (toLowerStr p).data (toLowerStr g.white).data) g.moves.length g.moves
      (List.range (min g.moves.length 80)) _
    exact ⟨h1, h2⟩

lemma foldl_analyzeGame_spec (p : String) (l : List ParsedGame) (a : StyleAcc) :
    ((l.foldl (analyzeGame p) a).style.totalGames = a.style.totalGames)
    ∧ ((l.foldl (analyzeGame p) a).totalMoves
        = a.totalMoves + ((l.map (fun g => g.moves.length)).sum)) := by
  induction l generalizing a with
  | nil => exact ⟨rfl, by simp⟩
  | cons g gs ih =>
    simp only [List.foldl_cons, List.map_cons, List.sum_cons]
    obtain ⟨h1, h2⟩ := ih (analyzeGame p a g)
    obtain ⟨h3, h4⟩ := analyzeGame_spec p a g
    refine ⟨h1.trans h3, h2.trans ?_⟩
    rw [h4]
    ring

lemma styleFromGames_spec (pg : List ParsedGame) (name : String) :
    (styleFromGames pg name).totalGames = pg.length
    ∧ (styleFromGames pg name).averageGameLength
        = jsRound (((((pg.map (fun g => g.moves.length)).sum : ℕ) : ℚ)) / (pg.length : ℚ)) := by
  unfold styleFromGames
  simp only []
  obtain ⟨h1, h2⟩ := foldl_analyzeGame_spec name pg
    ⟨{ name := name
       totalGames := pg.length
       averageGameLength := 0
       openingPreferences := []
       pieceActivity := ⟨0, 0, 0, 0, 0⟩
       tacticalPatterns := ⟨0, 0, 0, 0⟩
       endgameStyle := ⟨0, 0, 0⟩
       aggressiveness := 50
       positionalVsTactical := 50 }, 0, 0⟩
  constructor
  · split
    · exact h1
    · exact h1
  · split
    · show jsRound _ = _
      rw [h2]
      dsimp only
      rw [Nat.zero_add]
    · show jsRound _ = _
      rw [h2]
      dsimp only
      rw [Nat.zero_add]

/-- C9: `analyzePlayerStyle` fails exactly when no game's white or black
header contains the player name as a case-insensitive substring (and the
failure carries the PlayerNotFound message); on success with N matching
games, `totalGames` is N and `averageGameLength` is the integer-rounded
(half-up, as JS `Math.round`) mean move count of those games. -/
theorem analyzePlayerStyle_contract (games : List ParsedGame) (playerName : String) :
    ((analyzePlayerStyle games playerName).isOk
        = !(games.filter (nameMatches playerName)).isEmpty)
    ∧ ((games.filter (nameMatches playerName)).isEmpty = true →
        analyzePlayerStyle games playerName
          = .error ("No games found for player: " ++ playerName))
    ∧ (∀ st, analyzePlayerStyle games playerName = .ok st →
        st.totalGames = (games.filter (nameMatches playerName)).length
        ∧ st.averageGameLength = jsRound
            (((((games.filter (nameMatches playerName)).map
                (fun g => g.moves.length)).sum : ℕ) : ℚ)
              / (((games.filter (nameMatches playerName)).length : ℕ) : ℚ))) := by
  unfold analyzePlayerStyle
  simp only []
  by_cases hemp : (games.filter (nameMatches playerName)).isEmpty = true
  · rw [if_pos hemp]
    refine ⟨by rw [hemp]; rfl, fun _ => rfl, ?_⟩
    intro st hst
    cases hst
  · rw [if_neg hemp]
    refine ⟨by rw [Bool.not_eq_true] at hemp; rw [hemp]; rfl, fun habs => absurd habs hemp, ?_⟩
    intro st hst
    rw [Except.ok.injEq] at hst
    subst hst
    exact styleFromGames_spec _ _

/-- Witness for C9 at a concrete input: two games, one of which is by
"Ann"; the name filter keeps exactly that game. -/
theorem analyzePlayerStyle_contract_witness :
    ((analyzePlayerStyle demoGames "ann").isOk
        = !(demoGames.filter (nameMatches "ann")).isEmpty)
    ∧ ((styleFromGames (demoGames.filter (nameMatches "ann")) "ann").totalGames
        = (demoGames.filter (nameMatches "ann")).length
      ∧ (styleFromGames (demoGames.filter (nameMatches "ann")) "ann").averageGameLength
        = jsRound (((((demoGames.filter (nameMatches "ann")).map
              (fun g => g.moves.length)).sum : ℕ) : ℚ)
            / (((demoGames.filter (nameMatches "ann")).length : ℕ) : ℚ))) :=
  ⟨(analyzePlayerStyle_contract demoGames "ann").1,
   (analyzePlayerStyle_contract demoGames "ann").2.2 _ (by
      unfold analyzePlayerStyle
      rw [if_neg (by decide)])⟩

end ChessBot
